import Mathlib

/-!
# Process manager of the node agent (`agent/lib/pm/pm.go`)

A shallow embedding of the process manager: the message-ID allocator
(`loadMid`, `saveMid`, `getNextMsgID`), admission (`GetRunner`, `RunCmd`,
`processCmds`, `cleanUp`), the PID reaper (`Register`, `processWait`), the
slice startup (`RunSlice`) and the event fan-out (`msgCallback`,
`resultCallback`).

Machine integers are natural numbers reduced modulo `2^w` where the source
arithmetic can wrap. Go maps are association lists. Goroutine bodies are
functions applied atomically and the caller chooses the interleaving; for the
message path there is also a model in which the steps of `msgCallback` taken
by different goroutines interleave.
-/

set_option linter.dupNamespace false

namespace ProcMgr

/-! ## Message-ID file -/

/-- File content, a Go `[]byte`: every element is a byte value. -/
abbrev Bytes := List Nat

/-- The part of the file system the process manager touches: what `ReadFile`
returns for a path (`none` is a read error) and whether `WriteFile` succeeds. -/
structure FS where
  content : String → Option Bytes
  writable : String → Bool

/-- Outcome of `ioutil.WriteFile`: on success the file holds exactly `data`; on failure the
error is returned (and the file is left as it was). -/
def FS.writeFile (fs : FS) (path : String) (data : Bytes) : FS :=
  if fs.writable path then
    { fs with content := fun p => if p = path then some data else fs.content p }
  else fs

/-- Errors of `strconv.ParseUint`. -/
inductive NumError
  | syntaxErr
  | rangeErr
  | baseErr
  deriving DecidableEq, Repr

/-- The constant `1<<64 - 1` of `strconv`. -/
def maxUint64 : Nat := 2 ^ 64 - 1

/-- Go `lower(c) = c | ('x' - 'X')` of `strconv`. -/
def lower (c : Nat) : Nat := c ||| 0x20

/-- One turn of the digit loop of `strconv.ParseUint`: `n` is the value so far, `c` the byte. -/
def parseUintStep (base bitSize : Nat) (n c : Nat) : Except NumError Nat :=
  let cutoff := maxUint64 / base + 1
  let maxVal := (2 ^ bitSize - 1) % 2 ^ 64
  let d? : Option Nat :=
    if 48 ≤ c ∧ c ≤ 57 then some (c - 48)
    else if 97 ≤ lower c ∧ lower c ≤ 122 then some (lower c - 97 + 10)
    else none
  match d? with
  | none => .error .syntaxErr
  | some d =>
    if d ≥ base then .error .syntaxErr
    else if n ≥ cutoff then .error .rangeErr
    else
      let n0 := (n * base) % 2 ^ 64
      let n1 := (n0 + d) % 2 ^ 64
      if n1 < n0 ∨ n1 > maxVal then .error .rangeErr
      else .ok n1

/-- The digit loop of `strconv.ParseUint` from value `n` over the remaining bytes. -/
def parseUintLoop (base bitSize : Nat) : Nat → Bytes → Except NumError Nat
  | n, [] => .ok n
  | n, c :: cs =>
    match parseUintStep base bitSize n c with
    | .error e => .error e
    | .ok n1 => parseUintLoop base bitSize n1 cs

/-- Go `strconv.ParseUint(s, base, bitSize)` for an explicit base `2..36` and a bit size
`1..64` (base `0`, which infers the base from a prefix, is not used by the process manager
and is reported as `baseErr` here, like every other invalid base). -/
def ParseUint (s : Bytes) (base bitSize : Nat) : Except NumError Nat :=
  if s = [] then .error .syntaxErr
  else if 2 ≤ base ∧ base ≤ 36 then parseUintLoop base bitSize 0 s
  else .error .baseErr

/-- Go `fmt.Sprintf("%d", n)` for an unsigned `n`, as bytes: the decimal digits, most
significant first, no sign and no padding. -/
def sprintfD (n : Nat) : Bytes :=
  if h : n < 10 then [48 + n]
  else sprintfD (n / 10) ++ [48 + n % 10]
decreasing_by omega

/-- Source `loadMid`: the counter stored in the message-ID file, `0` when the file cannot
be read or does not parse. -/
def loadMid (fs : FS) (midfile : String) : Nat :=
  match fs.content midfile with
  | none => 0
  | some content =>
    match ParseUint content 10 32 with
    | .error _ => 0
    | .ok v => v % 2 ^ 32

/-- Source `saveMid`: writes the decimal text of `mid`; the result of the write is dropped. -/
def saveMid (fs : FS) (midfile : String) (mid : Nat) : FS :=
  fs.writeFile midfile (sprintfD mid)

/-! ## Go maps -/

/-- Go `v, ok := m[k]` on a map kept as an association list; `none` is `ok = false`. -/
def mapGet {κ β : Type} [DecidableEq κ] : List (κ × β) → κ → Option β
  | [], _ => none
  | (k1, v1) :: rest, k => if k1 = k then some v1 else mapGet rest k

/-- Go `m[k] = v`: the entry of `k` is replaced, or added when there is none. -/
def mapSet {κ β : Type} [DecidableEq κ] : List (κ × β) → κ → β → List (κ × β)
  | [], k, v => [(k, v)]
  | (k1, v1) :: rest, k, v =>
    if k1 = k then (k, v) :: rest else (k1, v1) :: mapSet rest k v

/-- Go `delete(m, k)`. -/
def mapDelete {κ β : Type} [DecidableEq κ] : List (κ × β) → κ → List (κ × β)
  | [], _ => []
  | (k1, v1) :: rest, k =>
    if k1 = k then mapDelete rest k else (k1, v1) :: mapDelete rest k

/-! ## Commands, results, messages -/

/-- Value stored in the argument bag of a command (`core.MapArgs` holds `interface{}`). -/
inductive ArgValue
  | int (n : Int)
  | str (s : String)
  | bool (b : Bool)
  | intArray (xs : List Int)
  deriving DecidableEq, Repr

/-- Modelled from the spec: `core.MapArgs`, the typed key-value bag of a command (its
source file is not part of this development). -/
abbrev MapArgs := List (String × ArgValue)

/-- Modelled from the spec: `MapArgs.GetIntArray`, the integer set stored under `key`,
empty when the key is absent or holds another kind of value. -/
def MapArgs.GetIntArray (args : MapArgs) (key : String) : List Int :=
  match mapGet args key with
  | some (.intArray xs) => xs
  | _ => []

/-- Modelled from the spec: `utils.In`, membership of `x` in the integer set `l`. -/
def utilsIn (l : List Int) (x : Int) : Bool := l.contains x

/-- The job descriptor `core.Cmd`. -/
structure Cmd where
  ID : String
  Gid : Int
  Nid : Int
  Name : String
  Data : String
  Args : MapArgs
  Tags : String
  deriving DecidableEq, Repr

/-- Result states of `core`. `unset` is the zero value of the field. -/
inductive JobState
  | unset
  | success
  | error
  | killed
  | unknownCmd
  | duplicateID
  | timeout
  deriving DecidableEq, Repr

/-- The result record `core.JobResult`. -/
structure JobResult where
  ID : String
  Gid : Int
  Nid : Int
  Args : MapArgs
  Data : String
  Level : Int
  State : JobState
  StartTime : Int
  Time : Int
  Tags : String
  deriving DecidableEq, Repr

/-- The log record `stream.Message`; `ID` is a `uint32`, `Epoch` nanoseconds. -/
structure Message where
  ID : Nat
  Level : Int
  Message : String
  Epoch : Int
  deriving DecidableEq, Repr

/-- Errors returned by `GetRunner`. -/
inductive PMError
  | UnknownCommandErr
  | DuplicateIDErr
  | other (msg : String)
  deriving DecidableEq, Repr

/-- Go `err.Error()`: the texts given to `errors.New` in the source. -/
def PMError.Error : PMError → String
  | .UnknownCommandErr => "unkonw command"
  | .DuplicateIDErr => "duplicate job id"
  | .other msg => msg

/-! ## Dependency state machine -/

/-- Modelled from the spec: the dependency state machine of slice startup, a map from a
key to the success value it was released with (a key that is absent is not released). -/
abbrev StateMachine := List (String × Bool)

/-- Modelled from the spec: `NewStateMachine`, no key released. -/
def NewStateMachine : StateMachine := []

/-- Modelled from the spec: `Release(key, success)` records the key as released with that
success value. -/
def StateMachine.Release (s : StateMachine) (key : String) (success : Bool) : StateMachine :=
  mapSet s key success

/-- Modelled from the spec: `Wait(keys...)`; `none` while some awaited key is not released
(the waiter blocks), otherwise `can_run`: every awaited key was released with success. -/
def StateMachine.Wait (s : StateMachine) (keys : List String) : Option Bool :=
  if keys.all (fun k => (mapGet s k).isSome) then
    some (keys.all (fun k => mapGet s k = some true))
  else none

/-! ## Runners and handlers -/

/-- Identity of a process factory of the handler registry. -/
abbrev ProcessFactory := Nat

/-- An exit hook `func(bool)`. The one hook the process manager builds is the closure of
`RunSlice` that releases a key of the dependency state machine. -/
inductive RunnerHook
  | release (key : String)
  deriving DecidableEq, Repr

/-- Calling a hook with the success value `s`. -/
def RunnerHook.call : RunnerHook → Bool → StateMachine → StateMachine
  | .release key, s, st => st.Release key s

/-- Modelled from the spec: the `Runner` built by `NewRunner(pm, cmd, factory, hooksOnExit,
hooks...)`: it owns the command, the factory and the exit hooks. -/
structure Runner where
  cmd : Cmd
  factory : ProcessFactory
  hooksOnExit : Bool
  hooks : List RunnerHook
  deriving DecidableEq, Repr

/-- Source `Runner.Command()`. -/
def Runner.Command (r : Runner) : Cmd := r.cmd

/-- A registered handler: a callable that receives events of type `α`. It is told apart
by `name`; `panicsOn e` says that the call with `e` panics instead of returning. -/
structure Handler (α : Type) where
  name : Nat
  panicsOn : α → Bool

/-- Modelled from the spec: `stats.Stats`, an aggregated snapshot of one source, which the
process manager only forwards. -/
structure Stats where
  Timestamp : Int
  Series : List (String × Int)
  deriving DecidableEq, Repr

abbrev MessageHandler := Handler (Cmd × Message)
abbrev ResultHandler := Handler (Cmd × JobResult)
abbrev StatsFlushHandler := Handler Stats

/-- What a fan-out did: the handler calls made, in order, and whether one of them
panicked (the panic leaves the loop and unwinds the caller). -/
structure FanOut (α : Type) where
  calls : List (Nat × α)
  panicked : Bool

/-- Go `for _, handler := range handlers { handler(e) }`. -/
def fanOut {α : Type} : List (Handler α) → α → FanOut α
  | [], _ => { calls := [], panicked := false }
  | h :: hs, e =>
    if h.panicsOn e then { calls := [(h.name, e)], panicked := true }
    else
      let r := fanOut hs e
      { calls := (h.name, e) :: r.calls, panicked := r.panicked }

/-- What is outside the process manager: the handler registry behind
`GetProcessFactory` and the constructor `core.NewBasicJobResult`. -/
structure Env where
  CmdMap : List (String × ProcessFactory)
  NewBasicJobResult : Cmd → JobResult

/-- Modelled from the spec: `GetProcessFactory`, the lookup of the command name in the
process-wide handler registry; `none` is Go `nil`. -/
def GetProcessFactory (env : Env) (cmd : Cmd) : Option ProcessFactory :=
  mapGet env.CmdMap cmd.Name

/-! ## The process manager -/

/-- Identity of a channel made by `make(chan *syscall.WaitStatus)`. -/
abbrev ChanId := Nat

/-- The struct `PM`. `mid` is a `uint32`. The command channel, the queue manager and the
locks have no field here: the caller of a step supplies the command received and steps
are atomic. `nextChan` numbers the channels made so far. -/
structure PM where
  mid : Nat
  midfile : String
  runners : List (String × Runner)
  maxJobs : Int
  msgHandlers : List MessageHandler
  resultHandlers : List ResultHandler
  statsFlushHandlers : List StatsFlushHandler
  pids : List (Int × ChanId)
  nextChan : Nat

/-- Source `InitProcessManager`. -/
def InitProcessManager (fs : FS) (midfile : String) (maxJobs : Int) : PM :=
  { mid := loadMid fs midfile
    midfile := midfile
    runners := []
    maxJobs := maxJobs
    msgHandlers := []
    resultHandlers := []
    statsFlushHandlers := []
    pids := []
    nextChan := 0 }

/-- Source `getNextMsgID`: `pm.mid++` on a `uint32`, then `saveMid`, then the new value. -/
def PM.getNextMsgID (pm : PM) (fs : FS) : PM × FS × Nat :=
  let mid := (pm.mid + 1) % 2 ^ 32
  ({ pm with mid := mid }, saveMid fs pm.midfile mid, mid)

/-- Source `AddMessageHandler`. -/
def PM.AddMessageHandler (pm : PM) (handler : MessageHandler) : PM :=
  { pm with msgHandlers := pm.msgHandlers ++ [handler] }

/-- Source `AddResultHandler`. -/
def PM.AddResultHandler (pm : PM) (handler : ResultHandler) : PM :=
  { pm with resultHandlers := pm.resultHandlers ++ [handler] }

/-- Source `AddStatsFlushHandler`. -/
def PM.AddStatsFlushHandler (pm : PM) (handler : StatsFlushHandler) : PM :=
  { pm with statsFlushHandlers := pm.statsFlushHandlers ++ [handler] }

/-- Source `GetRunner`. -/
def PM.GetRunner (env : Env) (pm : PM) (cmd : Cmd) (hooksOnExit : Bool)
    (hooks : List RunnerHook) : PM × Except PMError Runner :=
  match GetProcessFactory env cmd with
  | none => (pm, .error .UnknownCommandErr)
  | some factory =>
    if (mapGet pm.runners cmd.ID).isSome then (pm, .error .DuplicateIDErr)
    else
      let runner : Runner :=
        { cmd := cmd, factory := factory, hooksOnExit := hooksOnExit, hooks := hooks }
      ({ pm with runners := mapSet pm.runners cmd.ID runner }, .ok runner)

/-- Source `resultCallback`: tags and args of the command are put on the result, then the
result handlers are called. -/
def PM.resultCallback (pm : PM) (cmd : Cmd) (result : JobResult) : FanOut (Cmd × JobResult) :=
  let result := { result with Tags := cmd.Tags }
  let result := { result with Args := cmd.Args }
  fanOut pm.resultHandlers (cmd, result)

/-- What a call of `RunCmd` did: the process manager after it, the runner returned (`none`
is Go `nil`, also when the call did not return because a handler panicked), the runner
whose `Run` was started, the calls of `resultCallback` with the handler calls each made,
and whether the call panicked. -/
structure RunCmdResult where
  pm : PM
  ret : Option Runner
  started : Option Runner
  dispatched : List JobResult
  calls : List (Nat × Cmd × JobResult)
  panicked : Bool

/-- Source `RunCmd`. -/
def PM.RunCmd (env : Env) (pm : PM) (cmd : Cmd) (hooksOnExit : Bool)
    (hooks : List RunnerHook) : RunCmdResult :=
  match pm.GetRunner env cmd hooksOnExit hooks with
  | (pm1, .error .UnknownCommandErr) =>
    let errResult := env.NewBasicJobResult cmd
    let errResult := { errResult with State := JobState.unknownCmd }
    let r := pm1.resultCallback cmd errResult
    { pm := pm1, ret := none, started := none, dispatched := [errResult],
      calls := r.calls, panicked := r.panicked }
  | (pm1, .error .DuplicateIDErr) =>
    let errResult := env.NewBasicJobResult cmd
    let errResult := { errResult with State := JobState.duplicateID }
    let errResult := { errResult with Data := PMError.DuplicateIDErr.Error }
    let r := pm1.resultCallback cmd errResult
    { pm := pm1, ret := none, started := none, dispatched := [errResult],
      calls := r.calls, panicked := r.panicked }
  | (pm1, .error err) =>
    let errResult := env.NewBasicJobResult cmd
    let errResult := { errResult with State := JobState.error }
    let errResult := { errResult with Data := err.Error }
    let r := pm1.resultCallback cmd errResult
    { pm := pm1, ret := none, started := none, dispatched := [errResult],
      calls := r.calls, panicked := r.panicked }
  | (pm1, .ok runner) =>
    { pm := pm1, ret := some runner, started := some runner, dispatched := [],
      calls := [], panicked := false }

/-- Source `statsFlushCallback`. -/
def PM.statsFlushCallback (pm : PM) (stats : Stats) : FanOut Stats :=
  fanOut pm.statsFlushHandlers stats

/-- Source `cleanUp`: the runner's entry leaves the live-runners map. -/
def PM.cleanUp (pm : PM) (runner : Runner) : PM :=
  { pm with runners := mapDelete pm.runners runner.Command.ID }

/-- What a call of `msgCallback` did: the process manager and the file system after it,
the message handed to the handlers (`none` when the level filter dropped it), the handler
calls made, and whether one of them panicked. -/
structure MsgCallbackResult where
  pm : PM
  fs : FS
  delivered : Option Message
  calls : List (Nat × Cmd × Message)
  panicked : Bool

/-- Source `msgCallback`: the level filter, then the stamp (`now` is what `time.Now()`
gives), the id, and the message handlers. -/
def PM.msgCallback (pm : PM) (fs : FS) (cmd : Cmd) (msg : Message) (now : Int) :
    MsgCallbackResult :=
  let levels := cmd.Args.GetIntArray "loglevels"
  if levels.length > 0 ∧ ¬ utilsIn levels msg.Level then
    { pm := pm, fs := fs, delivered := none, calls := [], panicked := false }
  else
    let msg := { msg with Epoch := now }
    let (pm1, fs1, id) := pm.getNextMsgID fs
    let msg := { msg with ID := id }
    let r := fanOut pm1.msgHandlers (cmd, msg)
    { pm := pm1, fs := fs1, delivered := some msg, calls := r.calls, panicked := r.panicked }

/-! ## PID reaper -/

/-- A `syscall.WaitStatus` (a `uint32`). -/
abbrev WaitStatus := Nat

/-- What `syscall.Wait4(-1, &status, WNOHANG, &rusage)` gave on one signal. -/
structure Wait4Result where
  pid : Int
  status : WaitStatus
  err : Option String
  deriving DecidableEq, Repr

/-- An operation on a wait-status channel. -/
inductive ChanOp
  | send (ch : ChanId) (status : WaitStatus)
  | close (ch : ChanId)
  deriving DecidableEq, Repr

/-- Source `Register`: `g` is the outcome of the call `g()`, which starts the process.
The second component is the error returned (`none` is Go `nil`). -/
def PM.Register (pm : PM) (g : Except String Int) : PM × Option String :=
  match g with
  | .error err => (pm, some err)
  | .ok pid =>
    ({ pm with pids := mapSet pm.pids pid pm.nextChan, nextChan := pm.nextChan + 1 }, none)

/-- One turn of the signal loop of source `processWait`, the goroutine it starts included:
the wait-status is sent on the channel found for the PID, the channel is closed and the
PID leaves the map. The send is taken by a runner blocked in `Wait(pid)`. -/
def PM.processWaitStep (pm : PM) (w : Wait4Result) : PM × List ChanOp :=
  if w.err.isSome then (pm, [])
  else
    match mapGet pm.pids w.pid with
    | some ch => ({ pm with pids := mapDelete pm.pids w.pid }, [.send ch w.status, .close ch])
    | none => (pm, [])

/-- What the reaper interface is asked to do: a `Register` call or one turn of the signal
loop. -/
inductive ReaperOp
  | register (g : Except String Int)
  | reap (w : Wait4Result)

/-- The PID a reaper operation is about, if any: the PID registered, or the PID reaped. -/
def ReaperOp.pid? : ReaperOp → Option Int
  | .register (.ok pid) => some pid
  | .register (.error _) => none
  | .reap w => if w.err.isSome then none else some w.pid

/-- One reaper operation: the process manager after it and the channel operations made. -/
def PM.reaperStep (pm : PM) : ReaperOp → PM × List ChanOp
  | .register g => ((pm.Register g).1, [])
  | .reap w => pm.processWaitStep w

/-- A sequence of reaper operations, with the channel operations made, in order. -/
def PM.reaperRun (pm : PM) : List ReaperOp → PM × List ChanOp
  | [] => (pm, [])
  | op :: ops =>
    let r := pm.reaperStep op
    let r2 := r.1.reaperRun ops
    (r2.1, r.2 ++ r2.2)

/-- The channel a channel operation is made on. -/
def ChanOp.chan : ChanOp → ChanId
  | .send ch _ => ch
  | .close ch => ch

/-! ## Slice startup -/

/-- Modelled from the spec: an entry `settings.Startup` of a slice; `key` is what `Key()`
returns. -/
structure Startup where
  key : String
  Name : String
  Data : String
  Args : MapArgs
  After : List String
  MustExit : Bool
  deriving DecidableEq, Repr

/-- The values `RunSlice` reads from `settings`: `Options.Gid()`, `Options.Nid()` and
`Settings.Stats.Interval`. -/
structure Settings where
  Gid : Int
  Nid : Int
  StatsInterval : Int
  deriving DecidableEq, Repr

/-- Modelled from the spec: `MapArgs.GetInt`, the integer stored under `key`, `0` when the
key is absent or holds another kind of value. -/
def MapArgs.GetInt (args : MapArgs) (key : String) : Int :=
  match mapGet args key with
  | some (.int n) => n
  | _ => 0

/-- Modelled from the spec: `MapArgs.Set`. -/
def MapArgs.Set (args : MapArgs) (key : String) (v : ArgValue) : MapArgs :=
  mapSet args key v

/-- The command `RunSlice` builds for a slice entry, `stats_interval` defaulted. -/
def sliceCmd (st : Settings) (startup : Startup) : Cmd :=
  let cmd : Cmd :=
    { Gid := st.Gid, Nid := st.Nid, ID := startup.key, Name := startup.Name,
      Data := startup.Data, Args := startup.Args, Tags := "" }
  let meterInt := cmd.Args.GetInt "stats_interval"
  if meterInt = 0 then
    { cmd with Args := cmd.Args.Set "stats_interval" (.int st.StatsInterval) }
  else cmd

/-- What the per-entry goroutine of `RunSlice` did once its wait returned. -/
structure SliceEntryResult where
  pm : PM
  state : StateMachine
  canRun : Bool
  ran : Option RunCmdResult

/-- The per-entry goroutine of source `RunSlice`: `none` while `state.Wait(up.After...)`
blocks. -/
def runSliceEntry (env : Env) (pm : PM) (state : StateMachine) (up : Startup) (c : Cmd) :
    Option SliceEntryResult :=
  match state.Wait up.After with
  | none => none
  | some canRun =>
    if canRun then
      let r := pm.RunCmd env c up.MustExit [.release c.ID]
      some { pm := r.pm, state := state, canRun := true, ran := some r }
    else
      some { pm := pm, state := state, canRun := false, ran := none }

/-- The loop of source `RunSlice` after the goroutines are made: every needed key that the
slice does not provide is released with success. -/
def sliceAutoRelease (state : StateMachine) (slice : List Startup) : StateMachine :=
  let provided := slice.map (fun up => up.key)
  let needed := slice.flatMap (fun up => up.After)
  (needed.filter (fun k => ¬ k ∈ provided)).foldl (fun s k => s.Release k true) state

/-- The last statement of source `RunSlice`, `state.Wait(all...)`: `none` while it blocks. -/
def sliceFinalWait (state : StateMachine) (slice : List Startup) : Option Bool :=
  state.Wait (slice.map (fun up => up.key))

/-! ## Steps that change the live-runners map -/

/-- The scheduler loop `processCmds` stands either in its wait loop (`ready = false`) or
past it, about to receive a command and run it (`ready = true`). -/
structure Sched where
  pm : PM
  ready : Bool

/-- The operations that change the live-runners map. `check` is the scheduler leaving
`for len(pm.runners) >= pm.maxJobs`; `runCmd` is its `pm.RunCmd(cmd, false)`; `slice` is a
per-entry goroutine of `RunSlice` whose wait has returned; `cleanUp` is a runner ending. -/
inductive Action
  | check
  | runCmd (cmd : Cmd)
  | slice (st : Settings) (state : StateMachine) (up : Startup)
  | cleanUp (runner : Runner)
  deriving DecidableEq, Repr

/-- One operation; `none` when it cannot be taken in this state. -/
def Sched.step (env : Env) (s : Sched) : Action → Option Sched
  | .check =>
    if s.ready then none
    else if (s.pm.runners.length : Int) ≥ s.pm.maxJobs then none
    else some { s with ready := true }
  | .runCmd cmd =>
    if s.ready then some { pm := (s.pm.RunCmd env cmd false []).pm, ready := false }
    else none
  | .slice st state up =>
    match runSliceEntry env s.pm state up (sliceCmd st up) with
    | none => none
    | some r => some { s with pm := r.pm }
  | .cleanUp runner => some { s with pm := s.pm.cleanUp runner }

/-- A sequence of operations. -/
def Sched.run (env : Env) (s : Sched) : List Action → Option Sched
  | [] => some s
  | a :: as =>
    match s.step env a with
    | none => none
    | some s1 => s1.run env as

/-- The state `InitProcessManager` and `Run` leave: nothing admitted, the scheduler in its
wait loop. -/
def Sched.init (fs : FS) (midfile : String) (maxJobs : Int) : Sched :=
  { pm := InitProcessManager fs midfile maxJobs, ready := false }

/-- Whether an operation is an admission by `RunSlice`. -/
def Action.isSlice : Action → Bool
  | .slice _ _ _ => true
  | _ => false

/-- The invariant of the scheduler, `B` being the number of admissions by `RunSlice` so
far: the cap is `M`, the live runners are at most `M + B`, and fewer than `M + B` while
the scheduler stands past its wait loop. -/
def SchedInv (M : Int) (B : Nat) (s : Sched) : Prop :=
  s.pm.maxJobs = M ∧ (s.pm.runners.length : Int) ≤ M + B ∧
    (s.ready = true → (s.pm.runners.length : Int) < M + B)

/-- Whether the operation, taken in this state, is an admission by `RunSlice`: the
goroutine of a slice entry got `can_run = true` and its `RunCmd` returned a runner. -/
def Sched.sliceAdmits (env : Env) (s : Sched) : Action → Bool
  | .slice st state up =>
    match runSliceEntry env s.pm state up (sliceCmd st up) with
    | none => false
    | some r =>
      match r.ran with
      | none => false
      | some rc => rc.ret.isSome
  | _ => false

/-- The number of admissions by `RunSlice` in a sequence of operations from this state:
entries whose wait returned `false` and entries whose command `RunCmd` rejected do not
count. -/
def Sched.sliceAdmissions (env : Env) (s : Sched) : List Action → Nat
  | [] => 0
  | a :: as =>
    match s.step env a with
    | none => 0
    | some s1 => (if s.sliceAdmits env a then 1 else 0) + s1.sliceAdmissions env as

/-- The invariant of the reaper for a registered PID: channel ids in the PID map are below
`nextChan`, the PID maps to its channel, and no other PID maps to that channel. -/
def ReaperInv (pid : Int) (ch : ChanId) (pm : PM) : Prop :=
  (∀ e ∈ pm.pids, e.2 < pm.nextChan) ∧ mapGet pm.pids pid = some ch ∧
    (∀ e ∈ pm.pids, e.2 = ch → e.1 = pid)

/-! ## Message sequences -/

/-- The messages handed to the message handlers when `msgCallback` is called with each of
`inputs` in turn (command, message, clock) and the calls do not overlap: each call has
returned before the next one starts. -/
def deliveredMessages (pm : PM) (fs : FS) : List (Cmd × Message × Int) → List Message
  | [] => []
  | (cmd, msg, now) :: rest =>
    let r := pm.msgCallback fs cmd msg now
    r.delivered.toList ++ deliveredMessages r.pm r.fs rest

/-! ## Reading of the message-ID file, as the specification words it -/

/-- Whether the content is exactly a base-10 unsigned integer: not empty, digits only. -/
def isDecimal (content : Bytes) : Prop :=
  content ≠ [] ∧ ∀ b ∈ content, 48 ≤ b ∧ b ≤ 57

instance (content : Bytes) : Decidable (isDecimal content) := by
  unfold isDecimal; infer_instance

/-- The number a string of decimal digits denotes, read from value `n` on. -/
def decimalValueFrom (n : Nat) (content : Bytes) : Nat :=
  content.foldl (fun acc b => acc * 10 + (b - 48)) n

/-- The number a string of decimal digits denotes. -/
def decimalValue (content : Bytes) : Nat := decimalValueFrom 0 content

/-- The counter the specification gives for a message-ID file: `0` if missing or
malformed, else the number the content denotes. -/
def specLoadMid (file : Option Bytes) : Nat :=
  match file with
  | none => 0
  | some content =>
    if isDecimal content ∧ decimalValue content ≤ 4294967295 then decimalValue content
    else 0

/-! ## Overlapping calls of msgCallback -/

/-- A call of `msgCallback` that has its id and stands in the handler loop: the command, the
stamped message, the handlers it has still to call, and whether it has called none yet. -/
structure PendingMsg where
  cmd : Cmd
  msg : Message
  remaining : List MessageHandler
  fresh : Bool

/-- The message path with its callers: the process manager and the message-ID file, the
calls of `msgCallback` in progress by goroutine, and what has been observed so far: the
ids handed out by `getNextMsgID` in the order of its calls (it runs under `midMux`), the
ids of the messages in the order they first reached a handler, and the handler calls. -/
structure MsgSys where
  pm : PM
  fs : FS
  pending : List (Nat × PendingMsg)
  assigned : List Nat
  delivered : List Nat
  calls : List (Nat × Cmd × Message)

/-- What a goroutine does on the message path: it calls `msgCallback` (`start`: the level
filter, the stamp and `getNextMsgID`), or it makes the next handler call of its loop
(`call`). Only `getNextMsgID` holds a lock, so steps of different goroutines interleave. -/
inductive MsgOp
  | start (g : Nat) (cmd : Cmd) (msg : Message) (now : Int)
  | call (g : Nat)
  deriving DecidableEq, Repr

/-- The state before any call of `msgCallback`. -/
def MsgSys.init (pm : PM) (fs : FS) : MsgSys :=
  { pm := pm, fs := fs, pending := [], assigned := [], delivered := [], calls := [] }

/-- One step of source `msgCallback` by one goroutine; `none` when the step cannot be
taken: a goroutine starts no call while it is in one, and with `overlap = false` no call
starts while another is in progress. -/
def MsgSys.step (overlap : Bool) (s : MsgSys) : MsgOp → Option MsgSys
  | .start g cmd msg now =>
    if (mapGet s.pending g).isSome then none
    else if overlap = false ∧ s.pending.isEmpty = false then none
    else
      let levels := cmd.Args.GetIntArray "loglevels"
      if levels.length > 0 ∧ ¬ utilsIn levels msg.Level then some s
      else
        let msg := { msg with Epoch := now }
        let r := s.pm.getNextMsgID s.fs
        let msg := { msg with ID := r.2.2 }
        some { s with
          pm := r.1
          fs := r.2.1
          assigned := s.assigned ++ [r.2.2]
          pending :=
            match r.1.msgHandlers with
            | [] => s.pending
            | h :: hs =>
              mapSet s.pending g { cmd := cmd, msg := msg, remaining := h :: hs, fresh := true } }
  | .call g =>
    match mapGet s.pending g with
    | none => none
    | some p =>
      match p.remaining with
      | [] => some { s with pending := mapDelete s.pending g }
      | h :: rest =>
        some { s with
          calls := s.calls ++ [(h.name, p.cmd, p.msg)]
          delivered := if p.fresh then s.delivered ++ [p.msg.ID] else s.delivered
          pending :=
            if h.panicsOn (p.cmd, p.msg) = true ∨ rest.isEmpty = true then mapDelete s.pending g
            else mapSet s.pending g { p with remaining := rest, fresh := false } }

/-- A sequence of steps. -/
def MsgSys.run (overlap : Bool) (s : MsgSys) : List MsgOp → Option MsgSys
  | [] => some s
  | op :: ops =>
    match s.step overlap op with
    | none => none
    | some s1 => s1.run overlap ops

/-- The invariant of the ids handed out, from the counter `m0`: the counter has advanced by
their number, each lies above `m0` and not above the counter, and they increase. -/
def AssignedInv (m0 : Nat) (s : MsgSys) : Prop :=
  s.pm.mid = m0 + s.assigned.length ∧ (∀ a ∈ s.assigned, m0 < a ∧ a ≤ s.pm.mid) ∧
    List.Pairwise (fun a b => a < b) s.assigned

/-- The invariant of the delivery order when calls do not overlap: the ids delivered
increase and are not above the counter, at most one call is in progress, and a call that
has reached no handler yet holds an id above all delivered ones. -/
def DeliveredInv (s : MsgSys) : Prop :=
  (∀ d ∈ s.delivered, d ≤ s.pm.mid) ∧ List.Pairwise (fun a b => a < b) s.delivered ∧
    s.pending.length ≤ 1 ∧
    (∀ e ∈ s.pending, e.2.msg.ID ≤ s.pm.mid ∧
      (e.2.fresh = true → ∀ d ∈ s.delivered, d < e.2.msg.ID))

/-! ## Handlers reached by a fan-out -/

/-- The handlers a fan-out of `e` reaches: those registered before the first one that
panics on `e`, and that one. -/
def calledHandlers {α : Type} (hs : List (Handler α)) (e : α) : List (Handler α) :=
  hs.takeWhile (fun h => !h.panicsOn e) ++ (hs.dropWhile (fun h => !h.panicsOn e)).take 1

/-! ## Child exits -/

/-- The children of the agent as the kernel holds them: those that have exited and are not
waited for yet, in the order `wait4` hands them out, and those still running. -/
structure Kernel where
  exited : List (Int × WaitStatus)
  running : List Int
  deriving DecidableEq, Repr

/-- The call `syscall.Wait4(-1, &status, syscall.WNOHANG, &rusage)`: one exited child is
reaped when there is one; otherwise the call returns at once, with PID `0` while children
run and with the error `ECHILD` when there is no child. -/
def Wait4 (k : Kernel) : Wait4Result × Kernel :=
  match k.exited with
  | (pid, status) :: rest =>
    ({ pid := pid, status := status, err := none }, { k with exited := rest })
  | [] =>
    if k.running.isEmpty then ({ pid := -1, status := 0, err := some "ECHILD" }, k)
    else ({ pid := 0, status := 0, err := none }, k)

/-- The body of the signal loop of source `processWait` for one child-terminated signal:
one call of `Wait4`, then the delivery to the channel of the PID it gave. -/
def PM.processWaitSignal (pm : PM) (k : Kernel) : PM × Kernel × List ChanOp :=
  let w := Wait4 k
  let r := pm.processWaitStep w.1
  (r.1, w.2, r.2)

/-- The reaper as the specification words it, over the exited children: the non-blocking
wait is repeated, each reaped PID served, until no exited child remains. -/
def specDrainExited (pm : PM) : List (Int × WaitStatus) → PM × List ChanOp
  | [] => (pm, [])
  | (pid, status) :: rest =>
    let r := pm.processWaitStep { pid := pid, status := status, err := none }
    let r2 := specDrainExited r.1 rest
    (r2.1, r.2 ++ r2.2)

/-- The reaper as the specification words it, for one child-terminated signal. -/
def specProcessWaitSignal (pm : PM) (k : Kernel) : PM × Kernel × List ChanOp :=
  let r := specDrainExited pm k.exited
  (r.1, { k with exited := [] }, r.2)

/-! ## A slice while it starts -/

/-- Modelled from the spec: a runner invokes its exit hooks in registration order with the
success value (the source of the runner is not part of this development). -/
def Runner.callHooks (r : Runner) (success : Bool) (state : StateMachine) : StateMachine :=
  r.hooks.foldl (fun st h => h.call success st) state

/-- The process manager together with the dependency state machine of one `RunSlice`. -/
structure SliceSys where
  pm : PM
  state : StateMachine

/-- What can happen while a slice starts: the goroutine of an entry gets past its wait; a
live runner invokes its exit hooks; a live runner ends (`cleanUp`); the scheduler loop
takes in a command (`pm.RunCmd(cmd, false)`); `RunSlice` releases a key the slice does
not provide. -/
inductive SliceOp
  | entry (st : Settings) (up : Startup)
  | callHooks (id : String) (success : Bool)
  | cleanUp (id : String)
  | runCmd (cmd : Cmd)
  | autoRelease (key : String)
  deriving DecidableEq, Repr

/-- The key of the dependency state machine an operation is about: the key of the entry,
or the key released by `RunSlice` itself. -/
def SliceOp.key? : SliceOp → Option String
  | .entry _ up => some up.key
  | .autoRelease key => some key
  | _ => none

/-- One operation; `none` when it cannot be taken in this state. -/
def SliceSys.step (env : Env) (s : SliceSys) : SliceOp → Option SliceSys
  | .entry st up =>
    match runSliceEntry env s.pm s.state up (sliceCmd st up) with
    | none => none
    | some r => some { pm := r.pm, state := r.state }
  | .callHooks id success =>
    match mapGet s.pm.runners id with
    | none => none
    | some r => some { s with state := r.callHooks success s.state }
  | .cleanUp id =>
    match mapGet s.pm.runners id with
    | none => none
    | some r => some { s with pm := s.pm.cleanUp r }
  | .runCmd cmd => some { s with pm := (s.pm.RunCmd env cmd false []).pm }
  | .autoRelease key => some { s with state := s.state.Release key true }

/-- A sequence of operations. -/
def SliceSys.run (env : Env) (s : SliceSys) : List SliceOp → Option SliceSys
  | [] => some s
  | op :: ops =>
    match s.step env op with
    | none => none
    | some s1 => s1.run env ops

/-- The invariant for a key `k` whose hook no runner holds: no live runner holds the hook
that releases `k`, and the state machine holds for `k` what it held at the start. -/
def KeyUntouched (k : String) (v : Option Bool) (s : SliceSys) : Prop :=
  (∀ e ∈ s.pm.runners, RunnerHook.release k ∉ e.2.hooks) ∧ mapGet s.state k = v

/-! ## Concrete inputs -/

/-- A file system with no file, where every write succeeds. -/
def emptyFS : FS := { content := fun _ => none, writable := fun _ => true }

/-- A file system whose every file has the given content. -/
def constFS (content : Bytes) : FS := { content := fun _ => some content, writable := fun _ => true }

/-- Two result handlers that return normally. -/
def quietResultHandlers : List ResultHandler :=
  [{ name := 1, panicsOn := fun _ => false }, { name := 2, panicsOn := fun _ => false }]

/-- Two message handlers that return normally. -/
def quietMessageHandlers : List MessageHandler :=
  [{ name := 1, panicsOn := fun _ => false }, { name := 2, panicsOn := fun _ => false }]

/-- A sample constructor in the place of `core.NewBasicJobResult`, for concrete inputs
only: it copies the identity of the command and gives every other field its zero value.
No theorem depends on it but through these inputs; `RunCmd` takes the constructor as a
parameter. -/
def basicJobResult (cmd : Cmd) : JobResult :=
  { ID := cmd.ID, Gid := cmd.Gid, Nid := cmd.Nid, Args := [], Data := "", Level := 0,
    State := .unset, StartTime := 0, Time := 0, Tags := "" }

/-- A registry with the one command name `execute`. -/
def sampleEnv : Env := { CmdMap := [("execute", 7)], NewBasicJobResult := basicJobResult }

/-- A command of the registered name `execute`, with id `x`. -/
def sampleCmd : Cmd :=
  { ID := "x", Gid := 1, Nid := 1, Name := "execute", Data := "",
    Args := [("loglevels", .intArray [1, 2])], Tags := "t" }

/-- A command of the unregistered name `nope`. -/
def unknownCmd : Cmd := { sampleCmd with Name := "nope", ID := "y" }

/-- A process manager with two result handlers, two message handlers and one live
runner, of id `x`. -/
def samplePM : PM :=
  { InitProcessManager emptyFS "mid" 2 with
    resultHandlers := quietResultHandlers
    msgHandlers := quietMessageHandlers
    runners := [("x", { cmd := sampleCmd, factory := 7, hooksOnExit := false, hooks := [] })] }

/-- A process manager started on a message-ID file that holds `4294967294`, with two
message handlers. -/
def wrapPM : PM :=
  { InitProcessManager (constFS [52, 50, 57, 52, 57, 54, 55, 50, 57, 52]) "mid" 2 with
    msgHandlers := quietMessageHandlers }

/-- Two messages of a command without level filter. -/
def wrapInputs : List (Cmd × Message × Int) :=
  [({ sampleCmd with Args := [] }, { ID := 0, Level := 1, Message := "a", Epoch := 0 }, 10),
   ({ sampleCmd with Args := [] }, { ID := 0, Level := 1, Message := "b", Epoch := 0 }, 11)]

/-- Settings read by `RunSlice`. -/
def sampleSettings : Settings := { Gid := 1, Nid := 1, StatsInterval := 60 }

/-- A slice entry of the registered name `execute` with no prerequisite. -/
def sliceEntryA : Startup :=
  { key := "a", Name := "execute", Data := "", Args := [], After := [], MustExit := false }

/-- A slice entry of the registered name `execute` that waits for `a`. -/
def sliceEntryB : Startup :=
  { key := "b", Name := "execute", Data := "", Args := [], After := ["a"], MustExit := false }

/-- A slice entry of the registered name `execute` with no prerequisite, of key `c`. -/
def sliceEntryC : Startup :=
  { key := "c", Name := "execute", Data := "", Args := [], After := [], MustExit := false }

/-- Operations of the scheduler loop and of runners ending, with `maxJobs = 1`. -/
def capActions : List Action :=
  [.check, .runCmd sampleCmd,
   .cleanUp { cmd := sampleCmd, factory := 7, hooksOnExit := false, hooks := [] },
   .check, .runCmd { sampleCmd with ID := "z" }]

/-- The state `capActions` lead to from the initial state with `maxJobs = 1`. -/
def capFinal : Sched :=
  { pm := { InitProcessManager emptyFS "mid" 1 with
            runners := [("z", { cmd := { sampleCmd with ID := "z" }, factory := 7,
                                hooksOnExit := false, hooks := [] })] }
    ready := false }

/-- Reaper operations about the PIDs 200 and 300, none about the PID 100. -/
def otherReaperOps : List ReaperOp :=
  [.register (.ok 200), .reap { pid := 300, status := 1, err := none },
   .reap { pid := 200, status := 9, err := none }, .register (.ok 300),
   .reap { pid := 0, status := 0, err := some "ECHILD" }]

/-- The dependency state machine after the runner of entry `a` ended without success: its
exit hook released the key `a` with `false`. -/
def stateAfterAFailed : StateMachine := (RunnerHook.release "a").call false NewStateMachine

/-- Operations with `maxJobs = 1`: a slice entry of an unknown name and a slice entry whose
prerequisite failed (neither is admitted), the scheduler taking in one command, and a
slice entry that is admitted. -/
def mixedActions : List Action :=
  [.slice sampleSettings NewStateMachine
     { key := "u", Name := "nope", Data := "", Args := [], After := [], MustExit := false },
   .slice sampleSettings stateAfterAFailed sliceEntryB,
   .check, .runCmd sampleCmd,
   .slice sampleSettings NewStateMachine sliceEntryA]

/-- The state `mixedActions` lead to from the initial state with `maxJobs = 1`. -/
def mixedFinal : Sched :=
  { pm := { InitProcessManager emptyFS "mid" 1 with
            runners :=
              [("x", { cmd := sampleCmd, factory := 7, hooksOnExit := false, hooks := [] }),
               ("a", { cmd := sliceCmd sampleSettings sliceEntryA, factory := 7,
                       hooksOnExit := false, hooks := [.release "a"] })] }
    ready := false }

/-- Two goroutines call `msgCallback`; the second one reaches the handlers first. -/
def overlappingOps : List MsgOp :=
  [.start 1 { sampleCmd with Args := [] } { ID := 0, Level := 1, Message := "a", Epoch := 0 } 10,
   .start 2 { sampleCmd with Args := [] } { ID := 0, Level := 1, Message := "b", Epoch := 0 } 11,
   .call 2, .call 2, .call 1, .call 1]

/-- Two calls of `msgCallback` that do not overlap, and a third whose message the level
filter drops. -/
def sequentialOps : List MsgOp :=
  [.start 1 sampleCmd { ID := 0, Level := 1, Message := "a", Epoch := 0 } 10,
   .call 1, .call 1,
   .start 2 sampleCmd { ID := 0, Level := 3, Message := "b", Epoch := 0 } 11,
   .start 2 sampleCmd { ID := 0, Level := 2, Message := "c", Epoch := 0 } 12,
   .call 2, .call 2]

/-- The state `sequentialOps` lead to from `samplePM`: the ids 1 and 2 handed out and
delivered in this order to both handlers. -/
def sequentialFinal : MsgSys :=
  { pm := { samplePM with mid := 2 }
    fs := saveMid (saveMid emptyFS "mid" 1) "mid" 2
    pending := []
    assigned := [1, 2]
    delivered := [1, 2]
    calls :=
      [(1, sampleCmd, { ID := 1, Level := 1, Message := "a", Epoch := 10 }),
       (2, sampleCmd, { ID := 1, Level := 1, Message := "a", Epoch := 10 }),
       (1, sampleCmd, { ID := 2, Level := 2, Message := "c", Epoch := 12 }),
       (2, sampleCmd, { ID := 2, Level := 2, Message := "c", Epoch := 12 })] }

/-- A second slice entry of key `a`, of the registered name `execute`. -/
def sliceEntryA2 : Startup :=
  { key := "a", Name := "execute", Data := "second", Args := [], After := [],
    MustExit := false }

/-- A slice entry of the registered name `execute` whose key `x` is the id of the live
runner of `samplePM`. -/
def sliceEntryX : Startup :=
  { key := "x", Name := "execute", Data := "", Args := [], After := [], MustExit := false }

/-- Two result handlers, the first of which panics on every result. -/
def panickingResultHandlers : List ResultHandler :=
  [{ name := 1, panicsOn := fun _ => true }, { name := 2, panicsOn := fun _ => false }]

/-- Two message handlers, the first of which panics on every message. -/
def panickingMessageHandlers : List MessageHandler :=
  [{ name := 1, panicsOn := fun _ => true }, { name := 2, panicsOn := fun _ => false }]

/-- Three stats-flush handlers that return normally. -/
def quietStatsHandlers : List StatsFlushHandler :=
  [{ name := 1, panicsOn := fun _ => false }, { name := 2, panicsOn := fun _ => false },
   { name := 3, panicsOn := fun _ => false }]

/-- A process manager with the PIDs 100 and 200 registered, in this order. -/
def twoChildrenPM : PM :=
  (((InitProcessManager emptyFS "mid" 2).Register (.ok 100)).1.Register (.ok 200)).1

/-- Both children have exited before the signal is handled. -/
def twoExited : Kernel := { exited := [(100, 0), (200, 256)], running := [] }

/-- A command of the unregistered name `nope` whose id `x` is the id of a live runner of
`samplePM`. -/
def unknownLiveCmd : Cmd := { sampleCmd with Name := "nope" }

/-- A slice entry of the unregistered name `nope` with no prerequisite, of key `u`. -/
def sliceEntryUnknown : Startup :=
  { key := "u", Name := "nope", Data := "", Args := [], After := [], MustExit := false }

/-- What happens after the goroutine of the entry `u`: entry `a` starts, its runner calls
its hooks and ends, the scheduler takes in a command whose runner ends too. -/
def laterSliceOps : List SliceOp :=
  [.entry sampleSettings sliceEntryA, .callHooks "a" true, .cleanUp "a",
   .runCmd sampleCmd, .callHooks "x" false, .cleanUp "x", .autoRelease "ext"]

/-! ## Message-ID file: parsing and printing -/

/-- Value of `loadMid` once the file content has been parsed. -/
theorem loadMid_eq (fs : FS) (midfile : String) :
    loadMid fs midfile =
      match fs.content midfile with
      | none => 0
      | some content =>
        match ParseUint content 10 32 with
        | .error _ => 0
        | .ok v => v % 2 ^ 32 := rfl

theorem decimalValueFrom_nil (n : Nat) : decimalValueFrom n [] = n := rfl

theorem decimalValueFrom_cons (n b : Nat) (bs : Bytes) :
    decimalValueFrom n (b :: bs) = decimalValueFrom (n * 10 + (b - 48)) bs := rfl

theorem decimalValueFrom_append (n : Nat) (xs ys : Bytes) :
    decimalValueFrom n (xs ++ ys) = decimalValueFrom (decimalValueFrom n xs) ys := by
  simp [decimalValueFrom, List.foldl_append]

/-- Reading further digits never lowers the value. -/
theorem le_decimalValueFrom (bs : Bytes) : ∀ n : Nat, n ≤ decimalValueFrom n bs := by
  induction bs with
  | nil => intro n; simp [decimalValueFrom_nil]
  | cons b bs ih =>
    intro n
    rw [decimalValueFrom_cons]
    have := ih (n * 10 + (b - 48))
    omega

/-- A byte that is not a decimal digit is a syntax error in base 10. -/
theorem parseUintStep_nondigit (n c : Nat) (hc : ¬ (48 ≤ c ∧ c ≤ 57)) :
    parseUintStep 10 32 n c = .error .syntaxErr := by
  unfold parseUintStep
  simp only [hc, if_false]
  by_cases hl : 97 ≤ lower c ∧ lower c ≤ 122
  · have : lower c - 97 + 10 ≥ 10 := by omega
    simp [hl, this]
  · simp [hl]

/-- A decimal digit after a value that fits in 32 bits. -/
theorem parseUintStep_digit (n c : Nat) (hn : n ≤ 4294967295) (hc : 48 ≤ c ∧ c ≤ 57) :
    parseUintStep 10 32 n c =
      if n * 10 + (c - 48) > 4294967295 then .error .rangeErr
      else .ok (n * 10 + (c - 48)) := by
  unfold parseUintStep
  have hd : ¬ (c - 48 ≥ 10) := by omega
  have hcut : ¬ (n ≥ maxUint64 / 10 + 1) := by
    simp only [maxUint64]; norm_num; omega
  have h0 : (n * 10) % 2 ^ 64 = n * 10 := Nat.mod_eq_of_lt (by norm_num; omega)
  have h1 : (n * 10 + (c - 48)) % 2 ^ 64 = n * 10 + (c - 48) :=
    Nat.mod_eq_of_lt (by norm_num; omega)
  have hm : (2 ^ 32 - 1) % 2 ^ 64 = 4294967295 := by norm_num
  simp only [hc, and_self, if_true, hd, hcut, if_false, h0, h1, hm]
  by_cases hgt : n * 10 + (c - 48) > 4294967295
  · simp [hgt]
  · have : ¬ (n * 10 + (c - 48) < n * 10) := by omega
    simp [hgt, this]

/-- The digit loop in base 10 and 32 bits over digits only, from a value that fits: it
gives the value denoted when that fits, and a range error otherwise. -/
theorem parseUintLoop_digits (cs : Bytes) : ∀ n : Nat, n ≤ 4294967295 →
    (∀ b ∈ cs, 48 ≤ b ∧ b ≤ 57) →
    parseUintLoop 10 32 n cs =
      if decimalValueFrom n cs ≤ 4294967295 then .ok (decimalValueFrom n cs)
      else .error .rangeErr := by
  induction cs with
  | nil => intro n hn _; simp [parseUintLoop, decimalValueFrom_nil, hn]
  | cons c cs ih =>
    intro n hn hall
    have hc : 48 ≤ c ∧ c ≤ 57 := hall c (List.mem_cons_self _ _)
    have hrest : ∀ b ∈ cs, 48 ≤ b ∧ b ≤ 57 := fun b hb => hall b (List.mem_cons_of_mem _ hb)
    rw [decimalValueFrom_cons]
    by_cases hgt : n * 10 + (c - 48) > 4294967295
    · have hge := le_decimalValueFrom cs (n * 10 + (c - 48))
      have hnot : ¬ decimalValueFrom (n * 10 + (c - 48)) cs ≤ 4294967295 := by omega
      simp [parseUintLoop, parseUintStep_digit n c hn hc, hgt, hnot]
    · have hle : n * 10 + (c - 48) ≤ 4294967295 := by omega
      have hstep : parseUintLoop 10 32 n (c :: cs) =
          parseUintLoop 10 32 (n * 10 + (c - 48)) cs := by
        simp [parseUintLoop, parseUintStep_digit n c hn hc, hgt]
      rw [hstep]
      exact ih _ hle hrest

/-- A string with a byte that is not a digit does not parse. -/
theorem parseUintLoop_nondigit (cs : Bytes) : ∀ n : Nat, n ≤ 4294967295 →
    ¬ (∀ b ∈ cs, 48 ≤ b ∧ b ≤ 57) → ∃ e, parseUintLoop 10 32 n cs = .error e := by
  induction cs with
  | nil => intro n _ h; exact absurd (by simp) h
  | cons c cs ih =>
    intro n hn h
    by_cases hc : 48 ≤ c ∧ c ≤ 57
    · by_cases hgt : n * 10 + (c - 48) > 4294967295
      · exact ⟨.rangeErr, by simp [parseUintLoop, parseUintStep_digit n c hn hc, hgt]⟩
      · have hle : n * 10 + (c - 48) ≤ 4294967295 := by omega
        have hrest : ¬ (∀ b ∈ cs, 48 ≤ b ∧ b ≤ 57) := by
          intro h2; apply h; intro b hb
          rcases List.mem_cons.mp hb with rfl | hb
          · exact hc
          · exact h2 b hb
        obtain ⟨e, he⟩ := ih _ hle hrest
        exact ⟨e, by simp [parseUintLoop, parseUintStep_digit n c hn hc, hgt, he]⟩
    · exact ⟨.syntaxErr, by simp [parseUintLoop, parseUintStep_nondigit n c hc]⟩

/-- The code of `loadMid` reads the file as the specification words it. -/
theorem loadMid_eq_spec (fs : FS) (midfile : String) :
    loadMid fs midfile = specLoadMid (fs.content midfile) := by
  rw [loadMid_eq]
  cases hfile : fs.content midfile with
  | none => rfl
  | some content =>
    simp only [specLoadMid]
    by_cases hnil : content = []
    · subst hnil
      simp [ParseUint, isDecimal]
    · have hloop : ParseUint content 10 32 = parseUintLoop 10 32 0 content := by
        simp [ParseUint, hnil]
      rw [hloop]
      by_cases hall : ∀ b ∈ content, 48 ≤ b ∧ b ≤ 57
      · rw [parseUintLoop_digits content 0 (by omega) hall]
        by_cases hv : decimalValueFrom 0 content ≤ 4294967295
        · have hdec : isDecimal content := ⟨hnil, hall⟩
          have hmod : decimalValueFrom 0 content % 2 ^ 32 = decimalValueFrom 0 content :=
            Nat.mod_eq_of_lt (by norm_num; omega)
          simp only [hv, if_true, hdec, decimalValue, and_self]
          exact hmod
        · simp [hv, decimalValue]
      · obtain ⟨e, he⟩ := parseUintLoop_nondigit content 0 (by omega) hall
        have hdec : ¬ isDecimal content := fun h => hall h.2
        simp [he, hdec]

theorem sprintfD_lt (n : Nat) (h : n < 10) : sprintfD n = [48 + n] := by
  rw [sprintfD]; simp [h]

theorem sprintfD_ge (n : Nat) (h : ¬ n < 10) :
    sprintfD n = sprintfD (n / 10) ++ [48 + n % 10] := by
  rw [sprintfD]; simp [h]

/-- The text printed for a number is made of decimal digits. -/
theorem sprintfD_digits (n : Nat) : ∀ b ∈ sprintfD n, 48 ≤ b ∧ b ≤ 57 := by
  induction n using Nat.strong_induction_on with
  | _ n ih =>
    by_cases h : n < 10
    · rw [sprintfD_lt n h]; intro b hb; simp at hb; omega
    · rw [sprintfD_ge n h]
      intro b hb
      rcases List.mem_append.mp hb with hb | hb
      · exact ih (n / 10) (by omega) b hb
      · simp at hb; omega

/-- The text printed for a number is not empty. -/
theorem sprintfD_ne_nil (n : Nat) : sprintfD n ≠ [] := by
  by_cases h : n < 10
  · rw [sprintfD_lt n h]; simp
  · rw [sprintfD_ge n h]; simp

/-- The text printed for a number denotes that number. -/
theorem decimalValue_sprintfD (n : Nat) : decimalValue (sprintfD n) = n := by
  induction n using Nat.strong_induction_on with
  | _ n ih =>
    by_cases h : n < 10
    · rw [sprintfD_lt n h]; simp [decimalValue, decimalValueFrom]
    · rw [sprintfD_ge n h]
      have := ih (n / 10) (by omega)
      unfold decimalValue at this ⊢
      rw [decimalValueFrom_append, this, decimalValueFrom_cons, decimalValueFrom_nil]
      omega

/-- Reading back what `saveMid` wrote, for a counter that fits in 32 bits. -/
theorem loadMid_saveMid (fs : FS) (midfile : String) (n : Nat) (hn : n < 2 ^ 32)
    (hw : fs.writable midfile = true) : loadMid (saveMid fs midfile n) midfile = n := by
  rw [loadMid_eq_spec]
  have hc : (saveMid fs midfile n).content midfile = some (sprintfD n) := by
    simp [saveMid, FS.writeFile, hw]
  rw [hc]
  have hdec : isDecimal (sprintfD n) := ⟨sprintfD_ne_nil n, sprintfD_digits n⟩
  have hv : decimalValue (sprintfD n) ≤ 4294967295 := by
    rw [decimalValue_sprintfD]; norm_num at hn; omega
  simp only [specLoadMid, hdec, hv, and_self, if_true]
  exact decimalValue_sprintfD n

/-! ## Claims on the message-ID file -/

/-- C7: for every 32-bit counter value `n`, `loadMid` applied to the file written by
`saveMid(n)` returns `n`; and after `getNextMsgID` returns an id, with the write
succeeding, a process manager initialised on the same message-ID file starts with its
counter at that id. -/
theorem saveMid_loadMid_roundtrip (fs : FS) (midfile : String)
    (hw : fs.writable midfile = true) :
    (∀ n : Nat, n < 2 ^ 32 → loadMid (saveMid fs midfile n) midfile = n) ∧
    (∀ (pm : PM) (maxJobs : Int), pm.midfile = midfile →
      (InitProcessManager (pm.getNextMsgID fs).2.1 midfile maxJobs).mid
        = (pm.getNextMsgID fs).2.2) := by
  refine ⟨fun n hn => loadMid_saveMid fs midfile n hn hw, ?_⟩
  intro pm maxJobs hmf
  simp only [InitProcessManager, PM.getNextMsgID, hmf]
  exact loadMid_saveMid fs midfile _ (Nat.mod_lt _ (by norm_num)) hw

/-- C7 at a concrete input: the largest counter value is read back, and a process manager
whose counter stands at 41 hands out 42 and restarts at 42. -/
theorem saveMid_loadMid_roundtrip_witness :
    emptyFS.writable "mid" = true ∧
    loadMid (saveMid emptyFS "mid" 4294967295) "mid" = 4294967295 ∧
    (InitProcessManager
        (({ InitProcessManager emptyFS "mid" 2 with mid := 41 } : PM).getNextMsgID emptyFS).2.1
        "mid" 2).mid = 42 :=
  ⟨rfl,
   (saveMid_loadMid_roundtrip emptyFS "mid" rfl).1 4294967295 (by norm_num),
   (saveMid_loadMid_roundtrip emptyFS "mid" rfl).2
     { InitProcessManager emptyFS "mid" 2 with mid := 41 } 2 rfl⟩

/-- C8: `loadMid` returns `0` when the message-ID file cannot be read and when its content
is not exactly a base-10 unsigned integer that fits in 32 bits; for every other content
it returns the number the content denotes. -/
theorem loadMid_refines_spec (fs : FS) (midfile : String) :
    loadMid fs midfile =
      match fs.content midfile with
      | none => 0
      | some content =>
        if isDecimal content ∧ decimalValue content ≤ 4294967295 then decimalValue content
        else 0 := by
  rw [loadMid_eq_spec]; rfl

/-! ## Maps and fan-out -/

theorem mapGet_mapSet_self {κ β : Type} [DecidableEq κ] (m : List (κ × β)) (k : κ) (v : β) :
    mapGet (mapSet m k v) k = some v := by
  induction m with
  | nil => simp [mapSet, mapGet]
  | cons e rest ih =>
    obtain ⟨k1, v1⟩ := e
    by_cases h : k1 = k
    · simp [mapSet, mapGet, h]
    · simp [mapSet, mapGet, h, ih]

theorem mapGet_mapSet_ne {κ β : Type} [DecidableEq κ] (m : List (κ × β)) (k q : κ) (v : β)
    (hq : q ≠ k) : mapGet (mapSet m k v) q = mapGet m q := by
  induction m with
  | nil => simp [mapSet, mapGet, Ne.symm hq]
  | cons e rest ih =>
    obtain ⟨k1, v1⟩ := e
    by_cases h : k1 = k
    · subst h
      simp [mapSet, mapGet, Ne.symm hq]
    · by_cases h2 : k1 = q
      · subst h2
        simp [mapSet, mapGet, h]
      · simp [mapSet, mapGet, h, h2, ih]

theorem mem_mapSet {κ β : Type} [DecidableEq κ] (m : List (κ × β)) (k : κ) (v : β)
    (e : κ × β) (he : e ∈ mapSet m k v) : e = (k, v) ∨ e ∈ m := by
  induction m with
  | nil => simp [mapSet] at he; exact Or.inl he
  | cons e1 rest ih =>
    obtain ⟨k1, v1⟩ := e1
    by_cases h : k1 = k
    · simp only [mapSet, h, if_true, List.mem_cons] at he
      rcases he with he | he
      · exact Or.inl he
      · exact Or.inr (List.mem_cons_of_mem _ he)
    · simp only [mapSet, h, if_false, List.mem_cons] at he
      rcases he with he | he
      · subst he; exact Or.inr (List.mem_cons_self _ _)
      · rcases ih he with h1 | h1
        · exact Or.inl h1
        · exact Or.inr (List.mem_cons_of_mem _ h1)

theorem length_mapSet_le {κ β : Type} [DecidableEq κ] (m : List (κ × β)) (k : κ) (v : β) :
    (mapSet m k v).length ≤ m.length + 1 := by
  induction m with
  | nil => simp [mapSet]
  | cons e rest ih =>
    obtain ⟨k1, v1⟩ := e
    by_cases h : k1 = k
    · simp [mapSet, h]
    · simp [mapSet, h]; omega

theorem mapGet_mapDelete_self {κ β : Type} [DecidableEq κ] (m : List (κ × β)) (k : κ) :
    mapGet (mapDelete m k) k = none := by
  induction m with
  | nil => simp [mapDelete, mapGet]
  | cons e rest ih =>
    obtain ⟨k1, v1⟩ := e
    by_cases h : k1 = k
    · simp [mapDelete, h, ih]
    · simp [mapDelete, h, mapGet, ih]

theorem mapGet_mapDelete_ne {κ β : Type} [DecidableEq κ] (m : List (κ × β)) (k q : κ)
    (hq : q ≠ k) : mapGet (mapDelete m k) q = mapGet m q := by
  induction m with
  | nil => simp [mapDelete, mapGet]
  | cons e rest ih =>
    obtain ⟨k1, v1⟩ := e
    by_cases h : k1 = k
    · subst h
      simp [mapDelete, mapGet, Ne.symm hq, ih]
    · by_cases h2 : k1 = q
      · subst h2
        simp [mapDelete, h, mapGet]
      · simp [mapDelete, h, mapGet, h2, ih]

theorem mem_mapDelete {κ β : Type} [DecidableEq κ] (m : List (κ × β)) (k : κ)
    (e : κ × β) (he : e ∈ mapDelete m k) : e ∈ m := by
  induction m with
  | nil => simp [mapDelete] at he
  | cons e1 rest ih =>
    obtain ⟨k1, v1⟩ := e1
    by_cases h : k1 = k
    · simp only [mapDelete, h, if_true] at he
      exact List.mem_cons_of_mem _ (ih he)
    · simp only [mapDelete, h, if_false, List.mem_cons] at he
      rcases he with he | he
      · subst he; exact List.mem_cons_self _ _
      · exact List.mem_cons_of_mem _ (ih he)

theorem length_mapDelete_le {κ β : Type} [DecidableEq κ] (m : List (κ × β)) (k : κ) :
    (mapDelete m k).length ≤ m.length := by
  induction m with
  | nil => simp [mapDelete]
  | cons e rest ih =>
    obtain ⟨k1, v1⟩ := e
    by_cases h : k1 = k
    · simp [mapDelete, h]; omega
    · simp [mapDelete, h]; omega

theorem mem_of_mapGet {κ β : Type} [DecidableEq κ] (m : List (κ × β)) (k : κ) (v : β)
    (h : mapGet m k = some v) : (k, v) ∈ m := by
  induction m with
  | nil => simp [mapGet] at h
  | cons e rest ih =>
    obtain ⟨k1, v1⟩ := e
    by_cases hk : k1 = k
    · simp [mapGet, hk] at h
      subst hk; subst h
      exact List.mem_cons_self _ _
    · simp [mapGet, hk] at h
      exact List.mem_cons_of_mem _ (ih h)

/-- When no handler panics on the event, every handler is called with it, in registration
order, and the fan-out returns. -/
theorem fanOut_quiet {α : Type} (hs : List (Handler α)) (e : α)
    (hq : ∀ h ∈ hs, h.panicsOn e = false) :
    fanOut hs e = { calls := hs.map (fun h => (h.name, e)), panicked := false } := by
  induction hs with
  | nil => rfl
  | cons h hs ih =>
    have h1 : h.panicsOn e = false := hq h (List.mem_cons_self _ _)
    have h2 := ih (fun x hx => hq x (List.mem_cons_of_mem _ hx))
    simp [fanOut, h1, h2]

/-- Every call a fan-out makes carries the event it was given. -/
theorem fanOut_calls_event {α : Type} (hs : List (Handler α)) (e : α) :
    ∀ c ∈ (fanOut hs e).calls, c.2 = e := by
  induction hs with
  | nil => intro c hc; simp [fanOut] at hc
  | cons h hs ih =>
    intro c hc
    by_cases hp : h.panicsOn e = true
    · simp [fanOut, hp] at hc; simp [hc]
    · simp [fanOut, hp] at hc
      rcases hc with hc | hc
      · simp [hc]
      · exact ih c hc

/-- The calls a fan-out makes are the calls of the handlers it reaches, in order. -/
theorem fanOut_calls_eq {α : Type} (hs : List (Handler α)) (e : α) :
    (fanOut hs e).calls = (calledHandlers hs e).map (fun h => (h.name, e)) := by
  induction hs with
  | nil => rfl
  | cons h hs ih =>
    by_cases hp : h.panicsOn e = true
    · simp [fanOut, calledHandlers, hp]
    · have hq : h.panicsOn e = false := by simpa using hp
      simp only [calledHandlers] at ih
      simp [fanOut, calledHandlers, hq, ih]

/-- The fan-out reports a panic exactly when some handler panics on the event. -/
theorem fanOut_panicked_eq {α : Type} (hs : List (Handler α)) (e : α) :
    (fanOut hs e).panicked = hs.any (fun h => h.panicsOn e) := by
  induction hs with
  | nil => rfl
  | cons h hs ih =>
    by_cases hp : h.panicsOn e = true
    · simp [fanOut, hp]
    · have hq : h.panicsOn e = false := by simpa using hp
      simp [fanOut, hq, ih]

/-- When no handler panics on the event, the fan-out reaches every handler. -/
theorem calledHandlers_quiet {α : Type} (hs : List (Handler α)) (e : α)
    (hq : ∀ h ∈ hs, h.panicsOn e = false) : calledHandlers hs e = hs := by
  induction hs with
  | nil => rfl
  | cons h hs ih =>
    have h1 : h.panicsOn e = false := hq h (List.mem_cons_self _ _)
    have h2 := ih (fun x hx => hq x (List.mem_cons_of_mem _ hx))
    simp only [calledHandlers] at h2
    simp [calledHandlers, h1, h2]

/-- The fan-out stops at the first handler that panics: the handlers before it and that
one are reached, the handlers after it are not. -/
theorem calledHandlers_first_panic {α : Type} (pre post : List (Handler α)) (h : Handler α)
    (e : α) (hpre : ∀ x ∈ pre, x.panicsOn e = false) (hp : h.panicsOn e = true) :
    calledHandlers (pre ++ h :: post) e = pre ++ [h] := by
  induction pre with
  | nil => simp [calledHandlers, hp]
  | cons x pre ih =>
    have h1 : x.panicsOn e = false := hpre x (List.mem_cons_self _ _)
    have h2 := ih (fun y hy => hpre y (List.mem_cons_of_mem _ hy))
    simp only [calledHandlers] at h2
    simp [calledHandlers, h1, h2]

/-! ## Admission errors and result routing -/

/-- Outcome of `GetRunner` for a registered name and a live id. -/
theorem GetRunner_duplicate (env : Env) (pm : PM) (cmd : Cmd) (hooksOnExit : Bool)
    (hooks : List RunnerHook) (hreg : (GetProcessFactory env cmd).isSome = true)
    (hdup : (mapGet pm.runners cmd.ID).isSome = true) :
    pm.GetRunner env cmd hooksOnExit hooks = (pm, .error .DuplicateIDErr) := by
  unfold PM.GetRunner
  cases hf : GetProcessFactory env cmd with
  | none => simp [hf] at hreg
  | some f => simp [hdup]

/-- Outcome of `GetRunner` for an unregistered name. -/
theorem GetRunner_unknown (env : Env) (pm : PM) (cmd : Cmd) (hooksOnExit : Bool)
    (hooks : List RunnerHook) (hreg : GetProcessFactory env cmd = none) :
    pm.GetRunner env cmd hooksOnExit hooks = (pm, .error .UnknownCommandErr) := by
  unfold PM.GetRunner
  simp [hreg]

/-- C2: for every command whose name has a registered factory and whose id is already a
key of the live-runners map, `RunCmd` returns no runner and starts none, dispatches
exactly one result, of state `DUPLICATE_ID`, to the result handlers, and leaves the
live-runners map unchanged, the entry of that id included. -/
theorem RunCmd_duplicate_id (env : Env) (pm : PM) (cmd : Cmd) (hooksOnExit : Bool)
    (hooks : List RunnerHook) (hreg : (GetProcessFactory env cmd).isSome = true)
    (hdup : (mapGet pm.runners cmd.ID).isSome = true) :
    let res : JobResult :=
      { env.NewBasicJobResult cmd with State := .duplicateID, Data := "duplicate job id" }
    let sent : JobResult := { res with Tags := cmd.Tags, Args := cmd.Args }
    let r := pm.RunCmd env cmd hooksOnExit hooks
    r.ret = none ∧ r.started = none ∧
    r.dispatched = [res] ∧ res.State = .duplicateID ∧
    r.calls = (fanOut pm.resultHandlers (cmd, sent)).calls ∧
    (∀ c ∈ r.calls, c.2.2.State = .duplicateID) ∧
    ((∀ h ∈ pm.resultHandlers, h.panicsOn (cmd, sent) = false) →
      r.calls = pm.resultHandlers.map (fun h => (h.name, cmd, sent))) ∧
    r.pm.runners = pm.runners ∧
    mapGet r.pm.runners cmd.ID = mapGet pm.runners cmd.ID := by
  intro res sent r
  have hr : r = { pm := pm, ret := none, started := none, dispatched := [res],
                  calls := (fanOut pm.resultHandlers (cmd, sent)).calls,
                  panicked := (fanOut pm.resultHandlers (cmd, sent)).panicked } := by
    show pm.RunCmd env cmd hooksOnExit hooks = _
    unfold PM.RunCmd
    rw [GetRunner_duplicate env pm cmd hooksOnExit hooks hreg hdup]
    rfl
  rw [hr]
  refine ⟨rfl, rfl, rfl, rfl, rfl, ?_, ?_, rfl, rfl⟩
  · intro c hc
    have := fanOut_calls_event pm.resultHandlers (cmd, sent) c hc
    rw [this]
  · intro hq
    show (fanOut pm.resultHandlers (cmd, sent)).calls = _
    rw [fanOut_quiet pm.resultHandlers (cmd, sent) hq]

/-- C2 at a concrete input: a second command of id `x` while the runner of `x` is live. -/
theorem RunCmd_duplicate_id_witness :
    (GetProcessFactory sampleEnv sampleCmd).isSome = true ∧
    (mapGet samplePM.runners sampleCmd.ID).isSome = true ∧
    (samplePM.RunCmd sampleEnv sampleCmd false []).ret = none ∧
    ((samplePM.RunCmd sampleEnv sampleCmd false []).dispatched.map (fun x => x.State))
      = [JobState.duplicateID] ∧
    ((samplePM.RunCmd sampleEnv sampleCmd false []).calls.map (fun c => (c.1, c.2.2.State)))
      = [(1, JobState.duplicateID), (2, JobState.duplicateID)] ∧
    (samplePM.RunCmd sampleEnv sampleCmd false []).pm.runners = samplePM.runners := by
  have h := RunCmd_duplicate_id sampleEnv samplePM sampleCmd false [] rfl rfl
  simp only at h
  refine ⟨rfl, rfl, h.1, ?_, ?_, h.2.2.2.2.2.2.2.1⟩
  · rw [h.2.2.1]; rfl
  · rw [h.2.2.2.2.2.2.1 (by decide)]; rfl

/-- C3: for every command whose name has no registered factory, `RunCmd` returns no runner
and starts none, dispatches exactly one result, of state `UNKNOWN_COMMAND`, to the result
handlers, and leaves the live-runners map unchanged. -/
theorem RunCmd_unknown_command (env : Env) (pm : PM) (cmd : Cmd) (hooksOnExit : Bool)
    (hooks : List RunnerHook) (hreg : GetProcessFactory env cmd = none) :
    let res : JobResult := { env.NewBasicJobResult cmd with State := .unknownCmd }
    let sent : JobResult := { res with Tags := cmd.Tags, Args := cmd.Args }
    let r := pm.RunCmd env cmd hooksOnExit hooks
    r.ret = none ∧ r.started = none ∧
    r.dispatched = [res] ∧ res.State = .unknownCmd ∧
    r.calls = (fanOut pm.resultHandlers (cmd, sent)).calls ∧
    (∀ c ∈ r.calls, c.2.2.State = .unknownCmd) ∧
    ((∀ h ∈ pm.resultHandlers, h.panicsOn (cmd, sent) = false) →
      r.calls = pm.resultHandlers.map (fun h => (h.name, cmd, sent))) ∧
    r.pm.runners = pm.runners := by
  intro res sent r
  have hr : r = { pm := pm, ret := none, started := none, dispatched := [res],
                  calls := (fanOut pm.resultHandlers (cmd, sent)).calls,
                  panicked := (fanOut pm.resultHandlers (cmd, sent)).panicked } := by
    show pm.RunCmd env cmd hooksOnExit hooks = _
    unfold PM.RunCmd
    rw [GetRunner_unknown env pm cmd hooksOnExit hooks hreg]
    rfl
  rw [hr]
  refine ⟨rfl, rfl, rfl, rfl, rfl, ?_, ?_, rfl⟩
  · intro c hc
    have := fanOut_calls_event pm.resultHandlers (cmd, sent) c hc
    rw [this]
  · intro hq
    show (fanOut pm.resultHandlers (cmd, sent)).calls = _
    rw [fanOut_quiet pm.resultHandlers (cmd, sent) hq]

/-- C3 at a concrete input: a command of the unregistered name `nope`. -/
theorem RunCmd_unknown_command_witness :
    GetProcessFactory sampleEnv unknownCmd = none ∧
    (samplePM.RunCmd sampleEnv unknownCmd false []).ret = none ∧
    ((samplePM.RunCmd sampleEnv unknownCmd false []).dispatched.map (fun x => x.State))
      = [JobState.unknownCmd] ∧
    ((samplePM.RunCmd sampleEnv unknownCmd false []).calls.map (fun c => (c.1, c.2.2.State)))
      = [(1, JobState.unknownCmd), (2, JobState.unknownCmd)] ∧
    (samplePM.RunCmd sampleEnv unknownCmd false []).pm.runners = samplePM.runners := by
  have h := RunCmd_unknown_command sampleEnv samplePM unknownCmd false [] rfl
  simp only at h
  refine ⟨rfl, h.1, ?_, ?_, h.2.2.2.2.2.2.2⟩
  · rw [h.2.2.1]; rfl
  · rw [h.2.2.2.2.2.2.1 (by decide)]; rfl

/-- C4, as stated, fails: of two registered result handlers the first panics, and the
second is never called, with any tags or args. -/
theorem result_handler_not_called_counterexample :
    panickingResultHandlers.map (fun h => h.name) = [1, 2] ∧
    (({ samplePM with resultHandlers := panickingResultHandlers } : PM).resultCallback
        sampleCmd { basicJobResult sampleCmd with Tags := "old", Args := [("k", .int 3)] }
      ).calls.map (fun c => (c.1, c.2.2.Tags)) = [(1, "t")] ∧
    2 ∉ (({ samplePM with resultHandlers := panickingResultHandlers } : PM).resultCallback
        sampleCmd { basicJobResult sampleCmd with Tags := "old", Args := [("k", .int 3)] }
      ).calls.map (fun c => c.1) := by
  decide

/-- C4, amended: for every command and every result passed to `resultCallback`, the
registered result handlers are called in registration order up to and including the
first one that panics, each with the command and the result whose tags and args are the
command's, whatever the result held before; when no handler panics each registered
handler is called so. -/
theorem resultCallback_routing (pm : PM) (cmd : Cmd) (result : JobResult) :
    let sent : JobResult := { result with Tags := cmd.Tags, Args := cmd.Args }
    ((pm.resultCallback cmd result).calls
      = (calledHandlers pm.resultHandlers (cmd, sent)).map (fun h => (h.name, cmd, sent))) ∧
    (∀ c ∈ (pm.resultCallback cmd result).calls,
      c.2.1 = cmd ∧ c.2.2.Tags = cmd.Tags ∧ c.2.2.Args = cmd.Args ∧ c.2.2 = sent) ∧
    ((∀ h ∈ pm.resultHandlers, h.panicsOn (cmd, sent) = false) →
      (pm.resultCallback cmd result).calls
        = pm.resultHandlers.map (fun h => (h.name, cmd, sent))) := by
  intro sent
  have hcb : pm.resultCallback cmd result = fanOut pm.resultHandlers (cmd, sent) := rfl
  rw [hcb]
  refine ⟨fanOut_calls_eq _ _, ?_, ?_⟩
  · intro c hc
    have := fanOut_calls_event pm.resultHandlers (cmd, sent) c hc
    rw [this]
    exact ⟨rfl, rfl, rfl, rfl⟩
  · intro hq
    rw [fanOut_quiet pm.resultHandlers (cmd, sent) hq]

/-- C4, amended, at a concrete input: a result that held other tags and args. -/
theorem resultCallback_routing_witness :
    ((samplePM.resultCallback sampleCmd
        { basicJobResult sampleCmd with Tags := "old", Args := [("k", .int 3)] }).calls.map
      (fun c => (c.1, c.2.2.Tags, c.2.2.Args)))
      = [(1, "t", [("loglevels", .intArray [1, 2])]), (2, "t", [("loglevels", .intArray [1, 2])])] := by
  rw [(resultCallback_routing samplePM sampleCmd
        { basicJobResult sampleCmd with Tags := "old", Args := [("k", .int 3)] }).2.2 (by decide)]
  rfl

/-! ## Message filter and message ids -/

/-- The level filter of `msgCallback` drops the message exactly when the set of levels is
not empty and does not hold the level. -/
theorem filter_drops_iff (levels : List Int) (level : Int) :
    (levels.length > 0 ∧ ¬ (utilsIn levels level = true)) ↔ (levels ≠ [] ∧ level ∉ levels) := by
  simp [utilsIn, List.length_pos]

/-- `msgCallback` on a message the filter drops. -/
theorem msgCallback_dropped (pm : PM) (fs : FS) (cmd : Cmd) (msg : Message) (now : Int)
    (h : cmd.Args.GetIntArray "loglevels" ≠ [] ∧
      msg.Level ∉ cmd.Args.GetIntArray "loglevels") :
    pm.msgCallback fs cmd msg now =
      { pm := pm, fs := fs, delivered := none, calls := [], panicked := false } := by
  have hc := (filter_drops_iff (cmd.Args.GetIntArray "loglevels") msg.Level).mpr h
  unfold PM.msgCallback
  exact if_pos hc

/-- `msgCallback` on a message the filter lets through. -/
theorem msgCallback_passed (pm : PM) (fs : FS) (cmd : Cmd) (msg : Message) (now : Int)
    (h : cmd.Args.GetIntArray "loglevels" = [] ∨
      msg.Level ∈ cmd.Args.GetIntArray "loglevels") :
    pm.msgCallback fs cmd msg now =
      { pm := { pm with mid := (pm.mid + 1) % 2 ^ 32 }
        fs := saveMid fs pm.midfile ((pm.mid + 1) % 2 ^ 32)
        delivered := some { msg with Epoch := now, ID := (pm.mid + 1) % 2 ^ 32 }
        calls := (fanOut pm.msgHandlers
          (cmd, { msg with Epoch := now, ID := (pm.mid + 1) % 2 ^ 32 })).calls
        panicked := (fanOut pm.msgHandlers
          (cmd, { msg with Epoch := now, ID := (pm.mid + 1) % 2 ^ 32 })).panicked } := by
  have hc : ¬ ((cmd.Args.GetIntArray "loglevels").length > 0 ∧
      ¬ (utilsIn (cmd.Args.GetIntArray "loglevels") msg.Level = true)) := by
    rw [filter_drops_iff]
    rintro ⟨h1, h2⟩
    rcases h with h | h
    · exact h1 h
    · exact h2 h
  unfold PM.msgCallback
  exact (if_neg hc).trans rfl

/-- C5, as stated, fails: with an empty set of loglevels the message passes the filter,
the first of two registered message handlers panics, and the second is never called
with the message. -/
theorem message_handler_not_called_counterexample :
    ({ sampleCmd with Args := [] } : Cmd).Args.GetIntArray "loglevels" = [] ∧
    panickingMessageHandlers.map (fun h => h.name) = [1, 2] ∧
    (({ samplePM with msgHandlers := panickingMessageHandlers } : PM).msgCallback emptyFS
        { sampleCmd with Args := [] }
        { ID := 0, Level := 2, Message := "hello", Epoch := 0 } 5).calls.map (fun c => c.1)
      = [1] := by
  decide

/-- C5, amended: for every command with loglevels set `L` and every message `m` passed to
`msgCallback`: when `L` is empty or holds the level of `m`, the message handlers are
called with `m` (stamped with the clock and the next id) in registration order up to and
including the first one that panics, all of them when none panics; when `L` is not empty
and does not hold the level, no handler is called and no id is used. -/
theorem msgCallback_loglevels (pm : PM) (fs : FS) (cmd : Cmd) (msg : Message) (now : Int) :
    let L := cmd.Args.GetIntArray "loglevels"
    let m : Message := { msg with Epoch := now, ID := (pm.mid + 1) % 2 ^ 32 }
    let r := pm.msgCallback fs cmd msg now
    ((L = [] ∨ msg.Level ∈ L) →
      r.delivered = some m ∧
      r.calls = (calledHandlers pm.msgHandlers (cmd, m)).map (fun h => (h.name, cmd, m)) ∧
      (∀ c ∈ r.calls, c.2 = (cmd, m)) ∧
      ((∀ h ∈ pm.msgHandlers, h.panicsOn (cmd, m) = false) →
        r.calls = pm.msgHandlers.map (fun h => (h.name, cmd, m)))) ∧
    ((L ≠ [] ∧ msg.Level ∉ L) →
      r.delivered = none ∧ r.calls = [] ∧ r.pm.mid = pm.mid) ∧
    (r.delivered.isSome = true ↔ (L = [] ∨ msg.Level ∈ L)) := by
  intro L m r
  have hpass : (L = [] ∨ msg.Level ∈ L) →
      r.delivered = some m ∧ r.calls = (fanOut pm.msgHandlers (cmd, m)).calls := by
    intro h
    have hr : r = _ := msgCallback_passed pm fs cmd msg now h
    rw [hr]
    exact ⟨rfl, rfl⟩
  have hdrop : (L ≠ [] ∧ msg.Level ∉ L) →
      r.delivered = none ∧ r.calls = [] ∧ r.pm.mid = pm.mid := by
    intro h
    have hr : r = _ := msgCallback_dropped pm fs cmd msg now h
    rw [hr]
    exact ⟨rfl, rfl, rfl⟩
  refine ⟨?_, hdrop, ?_⟩
  · intro h
    obtain ⟨h1, h2⟩ := hpass h
    refine ⟨h1, ?_, ?_, ?_⟩
    · rw [h2]; exact fanOut_calls_eq _ _
    · rw [h2]; exact fanOut_calls_event pm.msgHandlers (cmd, m)
    · intro hq
      rw [h2, fanOut_quiet pm.msgHandlers (cmd, m) hq]
  · constructor
    · intro hsome
      by_contra hn
      have hn2 : L ≠ [] ∧ msg.Level ∉ L := by
        constructor
        · intro h; exact hn (Or.inl h)
        · intro h; exact hn (Or.inr h)
      rw [(hdrop hn2).1] at hsome
      simp at hsome
    · intro h
      rw [(hpass h).1]; rfl

/-- C5, amended, at concrete inputs: with loglevels `[1, 2]` a message of level 2 reaches
both handlers and a message of level 3 reaches none. -/
theorem msgCallback_loglevels_witness :
    ((samplePM.msgCallback emptyFS sampleCmd
        { ID := 0, Level := 2, Message := "hello", Epoch := 0 } 5).calls.map
      (fun c => (c.1, c.2.2.Level, c.2.2.ID, c.2.2.Epoch))) = [(1, 2, 1, 5), (2, 2, 1, 5)] ∧
    (samplePM.msgCallback emptyFS sampleCmd
        { ID := 0, Level := 3, Message := "hello", Epoch := 0 } 5).calls = [] := by
  constructor
  · rw [((msgCallback_loglevels samplePM emptyFS sampleCmd
        { ID := 0, Level := 2, Message := "hello", Epoch := 0 } 5).1
          (Or.inr (by decide))).2.2.2 (by decide)]
    rfl
  · exact ((msgCallback_loglevels samplePM emptyFS sampleCmd
        { ID := 0, Level := 3, Message := "hello", Epoch := 0 } 5).2.1
          ⟨by decide, by decide⟩).2.1

theorem deliveredMessages_cons (pm : PM) (fs : FS) (cmd : Cmd) (msg : Message) (now : Int)
    (rest : List (Cmd × Message × Int)) :
    deliveredMessages pm fs ((cmd, msg, now) :: rest) =
      (pm.msgCallback fs cmd msg now).delivered.toList ++
        deliveredMessages (pm.msgCallback fs cmd msg now).pm
          (pm.msgCallback fs cmd msg now).fs rest := rfl

/-- While the counter does not wrap, the ids of the delivered messages lie above the
counter the sequence started from and increase strictly. -/
theorem deliveredMessages_ids (inputs : List (Cmd × Message × Int)) :
    ∀ (pm : PM) (fs : FS), pm.mid + (deliveredMessages pm fs inputs).length < 2 ^ 32 →
      (∀ m ∈ deliveredMessages pm fs inputs, pm.mid < m.ID) ∧
      List.Pairwise (fun a b => a < b) ((deliveredMessages pm fs inputs).map (fun m => m.ID)) := by
  induction inputs with
  | nil => intro pm fs _; simp [deliveredMessages]
  | cons inp rest ih =>
    obtain ⟨cmd, msg, now⟩ := inp
    intro pm fs hlen
    rw [deliveredMessages_cons] at hlen ⊢
    by_cases hpass : cmd.Args.GetIntArray "loglevels" = [] ∨
        msg.Level ∈ cmd.Args.GetIntArray "loglevels"
    · rw [msgCallback_passed pm fs cmd msg now hpass] at hlen ⊢
      simp only [Option.toList, List.singleton_append, List.length_cons] at hlen ⊢
      have hmod : (pm.mid + 1) % 2 ^ 32 = pm.mid + 1 := Nat.mod_eq_of_lt (by omega)
      rw [hmod] at hlen ⊢
      obtain ⟨h1, h2⟩ := ih { pm with mid := pm.mid + 1 }
        (saveMid fs pm.midfile (pm.mid + 1)) (by simp only; omega)
      constructor
      · intro m hm
        rcases List.mem_cons.mp hm with hm | hm
        · subst hm; simp
        · have := h1 m hm
          simp only at this
          omega
      · rw [List.map_cons, List.pairwise_cons]
        refine ⟨?_, h2⟩
        intro b hb
        obtain ⟨m, hm, rfl⟩ := List.mem_map.mp hb
        have := h1 m hm
        simpa using this
    · have hdrop : cmd.Args.GetIntArray "loglevels" ≠ [] ∧
          msg.Level ∉ cmd.Args.GetIntArray "loglevels" := by
        constructor
        · intro h; exact hpass (Or.inl h)
        · intro h; exact hpass (Or.inr h)
      rw [msgCallback_dropped pm fs cmd msg now hdrop] at hlen ⊢
      simp only [Option.toList, List.nil_append] at hlen ⊢
      exact ih pm fs hlen

/-- C6, as stated, fails where the 32-bit counter wraps: started on a message-ID file that
holds `4294967294`, two delivered messages get the ids `4294967295` and `0`. -/
theorem msg_ids_wrap_counterexample :
    (deliveredMessages wrapPM (constFS [52, 50, 57, 52, 57, 54, 55, 50, 57, 52])
        wrapInputs).map (fun m => m.ID) = [4294967295, 0] ∧
    ¬ List.Pairwise (fun a b => a < b)
      ((deliveredMessages wrapPM (constFS [52, 50, 57, 52, 57, 54, 55, 50, 57, 52])
        wrapInputs).map (fun m => m.ID)) := by
  have h : (deliveredMessages wrapPM (constFS [52, 50, 57, 52, 57, 54, 55, 50, 57, 52])
      wrapInputs).map (fun m => m.ID) = [4294967295, 0] := by decide
  rw [h]
  exact ⟨rfl, by decide⟩

/-! ## The cap on live runners -/

/-- `RunCmd` leaves the process manager as `GetRunner` left it. -/
theorem RunCmd_pm (env : Env) (pm : PM) (cmd : Cmd) (hooksOnExit : Bool)
    (hooks : List RunnerHook) :
    (pm.RunCmd env cmd hooksOnExit hooks).pm = (pm.GetRunner env cmd hooksOnExit hooks).1 := by
  unfold PM.RunCmd
  generalize pm.GetRunner env cmd hooksOnExit hooks = g
  obtain ⟨pm1, e⟩ := g
  cases e with
  | ok runner => rfl
  | error err => cases err <;> rfl

/-- `GetRunner` adds at most one entry to the live-runners map and keeps the cap. -/
theorem GetRunner_runners (env : Env) (pm : PM) (cmd : Cmd) (hooksOnExit : Bool)
    (hooks : List RunnerHook) :
    (pm.GetRunner env cmd hooksOnExit hooks).1.runners.length ≤ pm.runners.length + 1 ∧
    (pm.GetRunner env cmd hooksOnExit hooks).1.maxJobs = pm.maxJobs := by
  unfold PM.GetRunner
  cases GetProcessFactory env cmd with
  | none => simp
  | some f =>
    by_cases hdup : (mapGet pm.runners cmd.ID).isSome = true
    · simp [hdup]
    · simp only [hdup, if_false]
      exact ⟨length_mapSet_le _ _ _, rfl⟩

/-- When `RunCmd` returns no runner the live-runners map is as it was. -/
theorem RunCmd_ret_none_runners (env : Env) (pm : PM) (cmd : Cmd) (hooksOnExit : Bool)
    (hooks : List RunnerHook) (hret : (pm.RunCmd env cmd hooksOnExit hooks).ret.isSome = false) :
    (pm.RunCmd env cmd hooksOnExit hooks).pm.runners = pm.runners := by
  unfold PM.RunCmd PM.GetRunner at hret ⊢
  cases hf : GetProcessFactory env cmd with
  | none => rfl
  | some f =>
    by_cases hdup : (mapGet pm.runners cmd.ID).isSome = true
    · simp only [hdup, if_true]
    · simp only [hf, hdup, if_false] at hret
      simp at hret

/-- The per-entry goroutine of `RunSlice` keeps the cap; it adds at most one entry to the
live-runners map, and none unless its `RunCmd` returned a runner. -/
theorem runSliceEntry_runners (env : Env) (pm : PM) (state : StateMachine) (up : Startup)
    (c : Cmd) (r : SliceEntryResult) (hr : runSliceEntry env pm state up c = some r) :
    r.pm.maxJobs = pm.maxJobs ∧
    r.pm.runners.length ≤ pm.runners.length +
      (match r.ran with
       | none => 0
       | some rc => if rc.ret.isSome then 1 else 0) := by
  unfold runSliceEntry at hr
  cases hw : state.Wait up.After with
  | none => simp [hw] at hr
  | some canRun =>
    cases canRun with
    | false =>
      simp [hw] at hr
      subst hr
      exact ⟨rfl, Nat.le_refl _⟩
    | true =>
      simp [hw] at hr
      subst hr
      have hg := GetRunner_runners env pm c up.MustExit [.release c.ID]
      refine ⟨?_, ?_⟩
      · show (pm.RunCmd env c up.MustExit [.release c.ID]).pm.maxJobs = _
        rw [RunCmd_pm]; exact hg.2
      · show (pm.RunCmd env c up.MustExit [.release c.ID]).pm.runners.length ≤
          pm.runners.length +
            (if (pm.RunCmd env c up.MustExit [.release c.ID]).ret.isSome then 1 else 0)
        by_cases hret : (pm.RunCmd env c up.MustExit [.release c.ID]).ret.isSome = true
        · simp only [hret, if_true]
          rw [RunCmd_pm]; exact hg.1
        · have hret2 : (pm.RunCmd env c up.MustExit [.release c.ID]).ret.isSome = false := by
            simpa using hret
          rw [RunCmd_ret_none_runners env pm c up.MustExit _ hret2]
          simp [hret2]

/-- Every operation keeps the invariant, an admission by `RunSlice` with one more in the
bound. -/
theorem SchedInv_step (env : Env) (M : Int) (B : Nat) (s s1 : Sched) (a : Action)
    (hinv : SchedInv M B s) (hstep : s.step env a = some s1) :
    SchedInv M (B + (if s.sliceAdmits env a then 1 else 0)) s1 := by
  obtain ⟨hM, hle, hready⟩ := hinv
  cases a with
  | check =>
    simp only [Sched.step] at hstep
    by_cases hr : s.ready = true
    · simp [hr] at hstep
    · by_cases hfull : (s.pm.runners.length : Int) ≥ s.pm.maxJobs
      · simp [hr, hfull] at hstep
      · simp [hr, hfull] at hstep
        subst hstep
        refine ⟨hM, ?_, fun _ => ?_⟩
        · show (s.pm.runners.length : Int) ≤ M + ((B + 0 : Nat) : Int)
          simpa using hle
        · show (s.pm.runners.length : Int) < M + ((B + 0 : Nat) : Int)
          simp only [Nat.add_zero]
          omega
  | runCmd cmd =>
    simp only [Sched.step] at hstep
    by_cases hr : s.ready = true
    · simp only [hr, if_true, Option.some.injEq] at hstep
      subst hstep
      have hg := GetRunner_runners env s.pm cmd false []
      have hlt := hready hr
      refine ⟨?_, ?_, ?_⟩
      · show (s.pm.RunCmd env cmd false []).pm.maxJobs = M
        rw [RunCmd_pm, hg.2, hM]
      · show ((s.pm.RunCmd env cmd false []).pm.runners.length : Int) ≤ M + ((B + 0 : Nat) : Int)
        rw [RunCmd_pm]
        have := hg.1
        simp only [Nat.add_zero]
        omega
      · intro h; simp at h
    · simp [hr] at hstep
  | slice st state up =>
    simp only [Sched.step] at hstep
    cases hr : runSliceEntry env s.pm state up (sliceCmd st up) with
    | none => simp [hr] at hstep
    | some r =>
      simp only [hr, Option.some.injEq] at hstep
      subst hstep
      obtain ⟨h2, h1⟩ := runSliceEntry_runners env s.pm state up _ r hr
      have hadm : (if s.sliceAdmits env (.slice st state up) then 1 else 0) =
          (match r.ran with
           | none => 0
           | some rc => if rc.ret.isSome then 1 else 0) := by
        simp only [Sched.sliceAdmits, hr]
        cases r.ran with
        | none => simp
        | some rc => rfl
      rw [hadm]
      generalize (match r.ran with
           | none => 0
           | some rc => if rc.ret.isSome then 1 else 0) = n at h1
      refine ⟨?_, ?_, ?_⟩
      · show r.pm.maxJobs = M
        rw [h2, hM]
      · show (r.pm.runners.length : Int) ≤ M + ((B + n : Nat) : Int)
        push_cast
        omega
      · intro hrd
        have hrd2 : s.ready = true := hrd
        have := hready hrd2
        show (r.pm.runners.length : Int) < M + ((B + n : Nat) : Int)
        push_cast
        omega
  | cleanUp runner =>
    simp only [Sched.step, Option.some.injEq] at hstep
    subst hstep
    have hd := length_mapDelete_le s.pm.runners runner.Command.ID
    refine ⟨hM, ?_, ?_⟩
    · show ((mapDelete s.pm.runners runner.Command.ID).length : Int) ≤ M + ((B + 0 : Nat) : Int)
      simp only [Nat.add_zero]
      omega
    · intro hr
      have hr2 : s.ready = true := hr
      have := hready hr2
      show ((mapDelete s.pm.runners runner.Command.ID).length : Int) < M + ((B + 0 : Nat) : Int)
      simp only [Nat.add_zero]
      omega

/-- A sequence of operations keeps the invariant, the bound raised by the number of
admissions by `RunSlice`. -/
theorem SchedInv_run (env : Env) (M : Int) (acts : List Action) :
    ∀ (B : Nat) (s s1 : Sched), SchedInv M B s →
      s.run env acts = some s1 → SchedInv M (B + s.sliceAdmissions env acts) s1 := by
  induction acts with
  | nil =>
    intro B s s1 hinv hrun
    simp only [Sched.run, Option.some.injEq] at hrun
    subst hrun; exact hinv
  | cons a acts ih =>
    intro B s s1 hinv hrun
    simp only [Sched.run] at hrun
    cases hstep : s.step env a with
    | none => simp [hstep] at hrun
    | some s2 =>
      simp only [hstep] at hrun
      have h2 := ih _ s2 s1 (SchedInv_step env M B s s2 a hinv hstep) hrun
      simp only [Sched.sliceAdmissions, hstep]
      rw [← Nat.add_assoc]
      exact h2

/-- Operations that are no slice steps hold no admission by `RunSlice`. -/
theorem sliceAdmissions_eq_zero (env : Env) (acts : List Action) :
    ∀ s : Sched, (∀ a ∈ acts, a.isSlice = false) → s.sliceAdmissions env acts = 0 := by
  induction acts with
  | nil => intro s _; rfl
  | cons a acts ih =>
    intro s hns
    simp only [Sched.sliceAdmissions]
    cases hstep : s.step env a with
    | none => rfl
    | some s1 =>
      have ha : a.isSlice = false := hns a (List.mem_cons_self _ _)
      have hadm : s.sliceAdmits env a = false := by
        cases a with
        | slice st state up => simp [Action.isSlice] at ha
        | check => rfl
        | runCmd cmd => rfl
        | cleanUp runner => rfl
      simp [hadm, ih s1 (fun b hb => hns b (List.mem_cons_of_mem _ hb))]

/-- C1, as stated, fails: with `maxJobs = 1`, two entries of a slice that have no
prerequisite are both admitted by `RunSlice` through `RunCmd`, which does not look at the
cap, and the live-runners map holds two entries. -/
theorem runners_cap_counterexample :
    ((Sched.init emptyFS "mid" 1).run sampleEnv
        [.slice sampleSettings NewStateMachine sliceEntryA,
         .slice sampleSettings NewStateMachine sliceEntryC]).map
      (fun s => (s.pm.runners.length, s.pm.maxJobs)) = some (2, 1) ∧
    ¬ ((2 : Int) ≤ 1) := by
  constructor
  · decide
  · decide

/-- C1, amended: taking as steps every operation that changes the live-runners map (the
scheduler loop `processCmds` leaving its wait loop and admitting the command received,
admission by `RunSlice` through `RunCmd`, removal by `cleanUp`), in every state reachable
from `InitProcessManager(midfile, maxJobs)` with `maxJobs >= 0` the number of entries in
`pm.runners` is at most `maxJobs` plus the number of admissions made by `RunSlice`
(entries whose `RunCmd` returned a runner); it is at most `maxJobs` when no step is a step
of `RunSlice`. -/
theorem runners_le_maxJobs (env : Env) (fs : FS) (midfile : String) (maxJobs : Int)
    (hmax : 0 ≤ maxJobs) (acts : List Action) (s : Sched)
    (hrun : (Sched.init fs midfile maxJobs).run env acts = some s) :
    (s.pm.runners.length : Int)
      ≤ maxJobs + (Sched.init fs midfile maxJobs).sliceAdmissions env acts ∧
    ((∀ a ∈ acts, a.isSlice = false) → (s.pm.runners.length : Int) ≤ maxJobs) := by
  have hinit : SchedInv maxJobs 0 (Sched.init fs midfile maxJobs) := by
    refine ⟨rfl, ?_, ?_⟩
    · show ((0 : Nat) : Int) ≤ maxJobs + ((0 : Nat) : Int)
      simpa using hmax
    · intro h; simp [Sched.init] at h
  have h := (SchedInv_run env maxJobs acts 0 _ s hinit hrun).2.1
  rw [Nat.zero_add] at h
  refine ⟨h, ?_⟩
  intro hns
  rw [sliceAdmissions_eq_zero env acts _ hns] at h
  simpa using h

/-- C1, amended, at concrete inputs with `maxJobs = 1`: a command is taken in, its runner
ends, and another command is taken in; and, with steps of `RunSlice`, two entries that
are not admitted, one command taken in by the scheduler and one entry admitted give two
live runners, the bound being `1 + 1`. -/
theorem runners_le_maxJobs_witness :
    (0 : Int) ≤ 1 ∧
    (Sched.init emptyFS "mid" 1).run sampleEnv capActions = some capFinal ∧
    (∀ a ∈ capActions, a.isSlice = false) ∧
    (capFinal.pm.runners.length : Int) ≤ 1 ∧
    (Sched.init emptyFS "mid" 1).run sampleEnv mixedActions = some mixedFinal ∧
    (Sched.init emptyFS "mid" 1).sliceAdmissions sampleEnv mixedActions = 1 ∧
    mixedFinal.pm.runners.length = 2 ∧
    (mixedFinal.pm.runners.length : Int)
      ≤ 1 + (Sched.init emptyFS "mid" 1).sliceAdmissions sampleEnv mixedActions :=
  ⟨by decide, rfl, by decide,
   (runners_le_maxJobs sampleEnv emptyFS "mid" 1 (by decide) capActions capFinal rfl).2
     (by decide),
   rfl, by decide, rfl,
   (runners_le_maxJobs sampleEnv emptyFS "mid" 1 (by decide) mixedActions mixedFinal rfl).1⟩

/-! ## PID reaper -/

/-- A reaper operation about another PID keeps the invariant of a registered PID and makes
no operation on its channel. -/
theorem ReaperInv_step (pid : Int) (ch : ChanId) (pm : PM) (op : ReaperOp)
    (hop : op.pid? ≠ some pid) (hinv : ReaperInv pid ch pm) :
    ReaperInv pid ch (pm.reaperStep op).1 ∧ ∀ o ∈ (pm.reaperStep op).2, o.chan ≠ ch := by
  obtain ⟨hfresh, hget, huniq⟩ := hinv
  have hch : ch < pm.nextChan := hfresh (pid, ch) (mem_of_mapGet _ _ _ hget)
  cases op with
  | register g =>
    cases g with
    | error err => exact ⟨⟨hfresh, hget, huniq⟩, by simp [PM.reaperStep]⟩
    | ok q =>
      have hq : q ≠ pid := by
        intro h; apply hop; simp [ReaperOp.pid?, h]
      refine ⟨⟨?_, ?_, ?_⟩, by simp [PM.reaperStep]⟩
      · intro e he
        show e.2 < pm.nextChan + 1
        rcases mem_mapSet pm.pids q pm.nextChan e he with h | h
        · rw [h]; exact Nat.lt_succ_self _
        · exact Nat.lt_succ_of_lt (hfresh e h)
      · show mapGet (mapSet pm.pids q pm.nextChan) pid = some ch
        rw [mapGet_mapSet_ne pm.pids q pid pm.nextChan (Ne.symm hq)]
        exact hget
      · intro e he hec
        rcases mem_mapSet pm.pids q pm.nextChan e he with h | h
        · have hnext : pm.nextChan = ch := by rw [h] at hec; exact hec
          exact absurd hnext (Nat.ne_of_gt hch)
        · exact huniq e h hec
  | reap w =>
    simp only [PM.reaperStep, PM.processWaitStep]
    by_cases herr : w.err.isSome = true
    · simp only [herr, if_true]
      exact ⟨⟨hfresh, hget, huniq⟩, by simp⟩
    · have hq : w.pid ≠ pid := by
        intro h; apply hop; simp [ReaperOp.pid?, herr, h]
      simp only [herr, if_false]
      cases hw : mapGet pm.pids w.pid with
      | none => exact ⟨⟨hfresh, hget, huniq⟩, by simp⟩
      | some c2 =>
        have hc2 : c2 ≠ ch := by
          intro h
          exact hq (huniq (w.pid, c2) (mem_of_mapGet _ _ _ hw) h)
        refine ⟨⟨?_, ?_, ?_⟩, ?_⟩
        · intro e he
          exact hfresh e (mem_mapDelete _ _ e he)
        · show mapGet (mapDelete pm.pids w.pid) pid = some ch
          rw [mapGet_mapDelete_ne pm.pids w.pid pid (Ne.symm hq)]
          exact hget
        · intro e he hec
          exact huniq e (mem_mapDelete _ _ e he) hec
        · intro o ho
          have ho2 : o = .send c2 w.status ∨ o = .close c2 := by simpa using ho
          rcases ho2 with h | h <;> (rw [h]; exact hc2)

/-- A sequence of reaper operations about other PIDs keeps the invariant of a registered
PID and makes no operation on its channel. -/
theorem ReaperInv_run (pid : Int) (ch : ChanId) (ops : List ReaperOp) :
    ∀ pm : PM, (∀ op ∈ ops, op.pid? ≠ some pid) → ReaperInv pid ch pm →
      ReaperInv pid ch (pm.reaperRun ops).1 ∧ ∀ o ∈ (pm.reaperRun ops).2, o.chan ≠ ch := by
  induction ops with
  | nil => intro pm _ hinv; exact ⟨hinv, by simp [PM.reaperRun]⟩
  | cons op ops ih =>
    intro pm hops hinv
    obtain ⟨h1, h2⟩ := ReaperInv_step pid ch pm op (hops op (List.mem_cons_self _ _)) hinv
    obtain ⟨h3, h4⟩ := ih (pm.reaperStep op).1
      (fun x hx => hops x (List.mem_cons_of_mem _ hx)) h1
    refine ⟨h3, ?_⟩
    intro o ho
    simp only [PM.reaperRun, List.mem_append] at ho
    rcases ho with ho | ho
    · exact h2 o ho
    · exact h4 o ho

/-- Every reaper operation keeps the channel ids of the PID map below `nextChan`. -/
theorem pids_fresh_reaperStep (pm : PM) (op : ReaperOp)
    (hfresh : ∀ e ∈ pm.pids, e.2 < pm.nextChan) :
    ∀ e ∈ (pm.reaperStep op).1.pids, e.2 < (pm.reaperStep op).1.nextChan := by
  cases op with
  | register g =>
    cases g with
    | error err => exact hfresh
    | ok q =>
      intro e he
      show e.2 < pm.nextChan + 1
      rcases mem_mapSet pm.pids q pm.nextChan e he with h | h
      · rw [h]; exact Nat.lt_succ_self _
      · exact Nat.lt_succ_of_lt (hfresh e h)
  | reap w =>
    simp only [PM.reaperStep, PM.processWaitStep]
    by_cases herr : w.err.isSome = true
    · simp only [herr, if_true]; exact hfresh
    · simp only [herr, if_false]
      cases hw : mapGet pm.pids w.pid with
      | none => exact hfresh
      | some c2 =>
        intro e he
        exact hfresh e (mem_mapDelete _ _ e he)

/-- In every state the reaper operations lead to from `InitProcessManager`, the channel
ids of the PID map are below `nextChan`. -/
theorem pids_fresh_reachable (fs : FS) (midfile : String) (maxJobs : Int)
    (ops : List ReaperOp) :
    ∀ e ∈ ((InitProcessManager fs midfile maxJobs).reaperRun ops).1.pids,
      e.2 < ((InitProcessManager fs midfile maxJobs).reaperRun ops).1.nextChan := by
  have hgen : ∀ (ops : List ReaperOp) (pm : PM), (∀ e ∈ pm.pids, e.2 < pm.nextChan) →
      ∀ e ∈ (pm.reaperRun ops).1.pids, e.2 < (pm.reaperRun ops).1.nextChan := by
    intro ops
    induction ops with
    | nil => intro pm h; exact h
    | cons op ops ih =>
      intro pm h
      exact ih (pm.reaperStep op).1 (pids_fresh_reaperStep pm op h)
  exact hgen ops _ (by intro e he; simp [InitProcessManager] at he)

/-- `Register` of a PID establishes the invariant for it, with the channel it made. -/
theorem ReaperInv_Register (pm : PM) (hfresh : ∀ e ∈ pm.pids, e.2 < pm.nextChan)
    (pid : Int) : ReaperInv pid pm.nextChan (pm.Register (.ok pid)).1 := by
  refine ⟨?_, ?_, ?_⟩
  · intro e he
    show e.2 < pm.nextChan + 1
    rcases mem_mapSet pm.pids pid pm.nextChan e he with h | h
    · rw [h]; exact Nat.lt_succ_self _
    · exact Nat.lt_succ_of_lt (hfresh e h)
  · exact mapGet_mapSet_self pm.pids pid pm.nextChan
  · intro e he hec
    rcases mem_mapSet pm.pids pid pm.nextChan e he with h | h
    · rw [h]
    · exact absurd hec (Nat.ne_of_lt (hfresh e h))

/-- C9: for every PID registered through `Register` and later reaped by `processWait`,
whatever is registered and reaped for other PIDs in between: no operation is made on the
channel registered for it before it is reaped; when it is reaped exactly the wait-status
of that wait call is sent on the channel and the channel is then closed; the PID leaves
the pids map, no PID maps to the channel any more, and the entries of all other PIDs are
unchanged. -/
theorem register_then_reap (pm : PM) (hfresh : ∀ e ∈ pm.pids, e.2 < pm.nextChan)
    (pid : Int) (ops : List ReaperOp) (hops : ∀ op ∈ ops, op.pid? ≠ some pid)
    (status : WaitStatus) :
    let ch := pm.nextChan
    let before := ((pm.Register (.ok pid)).1).reaperRun ops
    let after := before.1.processWaitStep { pid := pid, status := status, err := none }
    (pm.Register (.ok pid)).2 = none ∧
    (∀ o ∈ before.2, o.chan ≠ ch) ∧
    after.2 = [.send ch status, .close ch] ∧
    mapGet after.1.pids pid = none ∧
    (∀ e ∈ after.1.pids, e.2 ≠ ch) ∧
    (∀ q, q ≠ pid → mapGet after.1.pids q = mapGet before.1.pids q) := by
  intro ch before after
  obtain ⟨⟨_, hget, huniq⟩, hquiet⟩ :=
    ReaperInv_run pid ch ops _ hops (ReaperInv_Register pm hfresh pid)
  have hafter : after = ({ before.1 with pids := mapDelete before.1.pids pid },
      [.send ch status, .close ch]) := by
    show before.1.processWaitStep { pid := pid, status := status, err := none } = _
    simp only [PM.processWaitStep, Option.isSome_none, Bool.false_eq_true, if_false]
    have hget2 : mapGet before.1.pids pid = some ch := hget
    rw [hget2]
  rw [hafter]
  refine ⟨rfl, hquiet, rfl, mapGet_mapDelete_self _ _, ?_, ?_⟩
  · intro e he hec
    have hmem : e ∈ before.1.pids := mem_mapDelete _ _ e he
    have hk : e.1 = pid := huniq e hmem hec
    have hnone : mapGet (mapDelete before.1.pids pid) e.1 = none := by
      rw [hk]; exact mapGet_mapDelete_self _ _
    have hsome : ∃ v, mapGet (mapDelete before.1.pids pid) e.1 = some v := by
      clear hnone hk hec hmem
      revert he
      generalize mapDelete before.1.pids pid = m
      intro he
      induction m with
      | nil => simp at he
      | cons e1 rest ih =>
        obtain ⟨k1, v1⟩ := e1
        by_cases hk1 : k1 = e.1
        · exact ⟨v1, by simp [mapGet, hk1]⟩
        · rcases List.mem_cons.mp he with h | h
          · exact absurd (by rw [h]) hk1
          · obtain ⟨v, hv⟩ := ih h
            exact ⟨v, by simp [mapGet, hk1, hv]⟩
    obtain ⟨v, hv⟩ := hsome
    rw [hv] at hnone
    exact Option.noConfusion hnone
  · intro q hq
    exact mapGet_mapDelete_ne _ _ _ hq

/-- C9 at a concrete input: PID 100 is registered in the initial state, other PIDs are
registered and reaped, then PID 100 is reaped with wait-status 256. -/
theorem register_then_reap_witness :
    (∀ e ∈ (InitProcessManager emptyFS "mid" 2).pids,
      e.2 < (InitProcessManager emptyFS "mid" 2).nextChan) ∧
    (∀ op ∈ otherReaperOps, op.pid? ≠ some 100) ∧
    ((((InitProcessManager emptyFS "mid" 2).Register (.ok 100)).1.reaperRun
        otherReaperOps).1.processWaitStep { pid := 100, status := 256, err := none }).2
      = [.send 0 256, .close 0] ∧
    mapGet ((((InitProcessManager emptyFS "mid" 2).Register (.ok 100)).1.reaperRun
        otherReaperOps).1.processWaitStep { pid := 100, status := 256, err := none }).1.pids
      100 = none :=
  ⟨by decide, by decide,
   (register_then_reap (InitProcessManager emptyFS "mid" 2) (by decide) 100 otherReaperOps
      (by decide) 256).2.2.1,
   (register_then_reap (InitProcessManager emptyFS "mid" 2) (by decide) 100 otherReaperOps
      (by decide) 256).2.2.2.1⟩

/-! ## Slice startup: an entry whose prerequisite failed -/

/-- An entry of `RunSlice` whose wait returned `can_run = false` starts nothing and
releases nothing: process manager and state machine are as they were. -/
theorem runSliceEntry_cannot_run (env : Env) (pm : PM) (state : StateMachine) (up : Startup)
    (c : Cmd) (hwait : state.Wait up.After = some false) :
    (runSliceEntry env pm state up c).map (fun r => (r.canRun, r.ran.isSome, r.state))
      = some (false, false, state) ∧
    (runSliceEntry env pm state up c).map (fun r => r.pm.runners) = some pm.runners := by
  simp [runSliceEntry, hwait]

/-- C10 at the failing input: entry `b` waits for `a`, and `a` was released without
success. The goroutine of `b` gets `can_run = false`, starts nothing, and leaves the key
`b` unreleased, so the wait of `RunSlice` on all keys of the slice still blocks. -/
theorem runSlice_failed_dependency_not_released :
    stateAfterAFailed.Wait sliceEntryB.After = some false ∧
    (runSliceEntry sampleEnv (InitProcessManager emptyFS "mid" 2) stateAfterAFailed
        sliceEntryB (sliceCmd sampleSettings sliceEntryB)).map
      (fun r => (r.canRun, r.ran.isSome, r.pm.runners.length, mapGet r.state "b",
        sliceFinalWait r.state [sliceEntryA, sliceEntryB]))
      = some (false, false, 0, none, none) := by
  constructor
  · decide
  · decide

/-! ## Fan-out and panicking handlers -/

/-- Handlers are kept in registration order: each `Add...Handler` appends. -/
theorem handlers_in_registration_order (pm : PM) (hm : MessageHandler) (hr : ResultHandler)
    (hs : StatsFlushHandler) :
    (pm.AddMessageHandler hm).msgHandlers = pm.msgHandlers ++ [hm] ∧
    (pm.AddResultHandler hr).resultHandlers = pm.resultHandlers ++ [hr] ∧
    (pm.AddStatsFlushHandler hs).statsFlushHandlers = pm.statsFlushHandlers ++ [hs] :=
  ⟨rfl, rfl, rfl⟩

/-- C11, as stated, fails: the first of two result handlers panics, and the second one is
never called with the result. -/
theorem panicking_handler_counterexample :
    (({ samplePM with resultHandlers := panickingResultHandlers } : PM).resultCallback
        sampleCmd (basicJobResult sampleCmd)).calls.map (fun c => c.1) = [1] ∧
    (({ samplePM with resultHandlers := panickingResultHandlers } : PM).resultCallback
        sampleCmd (basicJobResult sampleCmd)).panicked = true ∧
    panickingResultHandlers.map (fun h => h.name) = [1, 2] := by
  decide

/-- C11, amended: for every event dispatched by `msgCallback`, `resultCallback` or
`statsFlushCallback` and every list of registered handlers, the handlers are called in
registration order up to and including the first one that panics, and no handler after
it is called; when no handler panics on the event, every registered handler is called
exactly once, in registration order. -/
theorem fanout_until_first_panic (pm : PM) (fs : FS) (cmd : Cmd) (msg : Message)
    (now : Int) (result : JobResult) (stats : Stats) :
    let sent : JobResult := { result with Tags := cmd.Tags, Args := cmd.Args }
    let m : Message := { msg with Epoch := now, ID := (pm.mid + 1) % 2 ^ 32 }
    let L := cmd.Args.GetIntArray "loglevels"
    ((pm.resultCallback cmd result).calls
        = (calledHandlers pm.resultHandlers (cmd, sent)).map (fun h => (h.name, cmd, sent))) ∧
    ((pm.statsFlushCallback stats).calls
        = (calledHandlers pm.statsFlushHandlers stats).map (fun h => (h.name, stats))) ∧
    ((L = [] ∨ msg.Level ∈ L) →
      (pm.msgCallback fs cmd msg now).calls
        = (calledHandlers pm.msgHandlers (cmd, m)).map (fun h => (h.name, cmd, m))) ∧
    ((∀ h ∈ pm.resultHandlers, h.panicsOn (cmd, sent) = false) →
      (pm.resultCallback cmd result).calls
        = pm.resultHandlers.map (fun h => (h.name, cmd, sent))) ∧
    ((∀ h ∈ pm.statsFlushHandlers, h.panicsOn stats = false) →
      (pm.statsFlushCallback stats).calls
        = pm.statsFlushHandlers.map (fun h => (h.name, stats))) ∧
    ((L = [] ∨ msg.Level ∈ L) → (∀ h ∈ pm.msgHandlers, h.panicsOn (cmd, m) = false) →
      (pm.msgCallback fs cmd msg now).calls
        = pm.msgHandlers.map (fun h => (h.name, cmd, m))) := by
  intro sent m L
  have hres : pm.resultCallback cmd result = fanOut pm.resultHandlers (cmd, sent) := rfl
  have hst : pm.statsFlushCallback stats = fanOut pm.statsFlushHandlers stats := rfl
  have hmsg : (L = [] ∨ msg.Level ∈ L) →
      (pm.msgCallback fs cmd msg now).calls = (fanOut pm.msgHandlers (cmd, m)).calls := by
    intro h
    rw [msgCallback_passed pm fs cmd msg now h]
  refine ⟨?_, ?_, ?_, ?_, ?_, ?_⟩
  · rw [hres, fanOut_calls_eq]
  · rw [hst, fanOut_calls_eq]
  · intro h
    rw [hmsg h, fanOut_calls_eq]
  · intro hq
    rw [hres, fanOut_calls_eq, calledHandlers_quiet _ _ hq]
  · intro hq
    rw [hst, fanOut_calls_eq, calledHandlers_quiet _ _ hq]
  · intro h hq
    rw [hmsg h, fanOut_calls_eq, calledHandlers_quiet _ _ hq]

/-- C11, amended, at concrete inputs: three stats-flush handlers that return normally are
called in registration order, and so are the two result handlers of `samplePM`. -/
theorem fanout_until_first_panic_witness :
    (({ samplePM with statsFlushHandlers := quietStatsHandlers } : PM).statsFlushCallback
        { Timestamp := 5, Series := [("cpu", 3)] }).calls.map (fun c => c.1) = [1, 2, 3] ∧
    (samplePM.resultCallback sampleCmd (basicJobResult sampleCmd)).calls.map (fun c => c.1)
      = [1, 2] := by
  constructor
  · rw [(fanout_until_first_panic { samplePM with statsFlushHandlers := quietStatsHandlers }
        emptyFS sampleCmd { ID := 0, Level := 1, Message := "", Epoch := 0 } 0
        (basicJobResult sampleCmd) { Timestamp := 5, Series := [("cpu", 3)] }).2.2.2.2.1
        (by decide)]
    rfl
  · rw [(fanout_until_first_panic samplePM emptyFS sampleCmd
        { ID := 0, Level := 1, Message := "", Epoch := 0 } 0
        (basicJobResult sampleCmd) { Timestamp := 5, Series := [("cpu", 3)] }).2.2.2.1
        (by decide)]
    rfl

/-! ## One wait per signal -/

/-- On one signal `processWait` reaps at most one exited child: the kernel keeps all but
the first, and at most one channel is served. -/
theorem processWaitSignal_reaps_one (pm : PM) (k : Kernel) :
    (pm.processWaitSignal k).2.1.exited = k.exited.tail ∧
    (pm.processWaitSignal k).2.2.length ≤ 2 := by
  have hops : ∀ w : Wait4Result, (pm.processWaitStep w).2.length ≤ 2 := by
    intro w
    unfold PM.processWaitStep
    by_cases herr : w.err.isSome = true
    · simp [herr]
    · simp only [herr, if_false]
      cases mapGet pm.pids w.pid <;> simp
  constructor
  · unfold PM.processWaitSignal Wait4
    cases hk : k.exited with
    | nil => by_cases hr : k.running.isEmpty = true <;> simp [hr, hk]
    | cons e rest => obtain ⟨pid, status⟩ := e; simp
  · exact hops _

/-- C12 at the failing input: the PIDs 100 and 200 are registered and both children have
exited before the one signal is handled. `processWait` calls `Wait4` once: the status of
PID 100 is delivered, PID 200 stays exited in the kernel and registered, and nothing is
sent on its channel; draining, as the claim words it, serves both. -/
theorem processWait_reaps_one_of_two :
    (twoChildrenPM.processWaitSignal twoExited).2.2 = [.send 0 0, .close 0] ∧
    (twoChildrenPM.processWaitSignal twoExited).2.1.exited = [(200, 256)] ∧
    mapGet (twoChildrenPM.processWaitSignal twoExited).1.pids 200 = some 1 ∧
    (specProcessWaitSignal twoChildrenPM twoExited).2.2
      = [.send 0 0, .close 0, .send 1 256, .close 1] ∧
    (specProcessWaitSignal twoChildrenPM twoExited).1.pids = [] := by
  decide

/-! ## The data of an unknown-command result -/

/-- `RunCmd` for an unregistered name: the one result it dispatches is what
`NewBasicJobResult` built, with the state set. -/
theorem RunCmd_of_unknown (env : Env) (pm : PM) (cmd : Cmd) (hooksOnExit : Bool)
    (hooks : List RunnerHook) (hreg : GetProcessFactory env cmd = none) :
    pm.RunCmd env cmd hooksOnExit hooks =
      { pm := pm, ret := none, started := none
        dispatched := [{ env.NewBasicJobResult cmd with State := .unknownCmd }]
        calls := (fanOut pm.resultHandlers (cmd,
          { env.NewBasicJobResult cmd with
            State := .unknownCmd, Tags := cmd.Tags, Args := cmd.Args })).calls
        panicked := (fanOut pm.resultHandlers (cmd,
          { env.NewBasicJobResult cmd with
            State := .unknownCmd, Tags := cmd.Tags, Args := cmd.Args })).panicked } := by
  unfold PM.RunCmd
  rw [GetRunner_unknown env pm cmd hooksOnExit hooks hreg]
  rfl

/-- `RunCmd` for a registered name and a live id. -/
theorem RunCmd_of_duplicate (env : Env) (pm : PM) (cmd : Cmd) (hooksOnExit : Bool)
    (hooks : List RunnerHook) (hreg : (GetProcessFactory env cmd).isSome = true)
    (hdup : (mapGet pm.runners cmd.ID).isSome = true) :
    pm.RunCmd env cmd hooksOnExit hooks =
      { pm := pm, ret := none, started := none
        dispatched := [{ env.NewBasicJobResult cmd with
          State := .duplicateID, Data := "duplicate job id" }]
        calls := (fanOut pm.resultHandlers (cmd,
          { env.NewBasicJobResult cmd with
            State := .duplicateID, Data := "duplicate job id",
            Tags := cmd.Tags, Args := cmd.Args })).calls
        panicked := (fanOut pm.resultHandlers (cmd,
          { env.NewBasicJobResult cmd with
            State := .duplicateID, Data := "duplicate job id",
            Tags := cmd.Tags, Args := cmd.Args })).panicked } := by
  unfold PM.RunCmd
  rw [GetRunner_duplicate env pm cmd hooksOnExit hooks hreg hdup]
  rfl

/-- C13 at the failing input: the command of the unregistered name `nope`, whatever
`NewBasicJobResult` builds. The `UNKNOWN_COMMAND` result dispatched carries the `data` the
constructor left: `RunCmd` sets the state only and writes no `data`, while for the command
of a live id it overwrites `data` with the text of the error. -/
theorem RunCmd_unknown_writes_no_data (ctor : Cmd → JobResult) :
    GetProcessFactory { CmdMap := [("execute", 7)], NewBasicJobResult := ctor } unknownCmd
      = none ∧
    (samplePM.RunCmd { CmdMap := [("execute", 7)], NewBasicJobResult := ctor }
        unknownCmd false []).dispatched.map (fun x => (x.State, x.Data))
      = [(JobState.unknownCmd, (ctor unknownCmd).Data)] ∧
    (samplePM.RunCmd { CmdMap := [("execute", 7)], NewBasicJobResult := ctor }
        unknownCmd false []).calls.map (fun c => (c.1, c.2.2.State, c.2.2.Data))
      = [(1, JobState.unknownCmd, (ctor unknownCmd).Data),
         (2, JobState.unknownCmd, (ctor unknownCmd).Data)] ∧
    (samplePM.RunCmd { CmdMap := [("execute", 7)], NewBasicJobResult := ctor }
        sampleCmd false []).dispatched.map (fun x => (x.State, x.Data))
      = [(JobState.duplicateID, "duplicate job id")] := by
  refine ⟨rfl, ?_, ?_, ?_⟩
  · rw [RunCmd_of_unknown { CmdMap := [("execute", 7)], NewBasicJobResult := ctor }
      samplePM unknownCmd false [] rfl]
    rfl
  · rw [RunCmd_of_unknown { CmdMap := [("execute", 7)], NewBasicJobResult := ctor }
      samplePM unknownCmd false [] rfl]
    rfl
  · rw [RunCmd_of_duplicate { CmdMap := [("execute", 7)], NewBasicJobResult := ctor }
      samplePM sampleCmd false [] rfl rfl]
    rfl

/-! ## Registry before live runners -/

/-- C15: `GetRunner` checks the handler registry before the live-runners map: for every
command whose name has no registered factory and whose id is the id of a live runner,
`GetRunner` returns `UnknownCommandErr` and `RunCmd` dispatches one result, of state
`UNKNOWN_COMMAND` and not `DUPLICATE_ID`. -/
theorem GetRunner_unknown_before_duplicate (env : Env) (pm : PM) (cmd : Cmd)
    (hooksOnExit : Bool) (hooks : List RunnerHook)
    (hreg : GetProcessFactory env cmd = none)
    (hlive : (mapGet pm.runners cmd.ID).isSome = true) :
    pm.GetRunner env cmd hooksOnExit hooks = (pm, .error .UnknownCommandErr) ∧
    (pm.RunCmd env cmd hooksOnExit hooks).dispatched.map (fun x => x.State)
      = [JobState.unknownCmd] ∧
    (∀ x ∈ (pm.RunCmd env cmd hooksOnExit hooks).dispatched, x.State ≠ .duplicateID) ∧
    (∀ c ∈ (pm.RunCmd env cmd hooksOnExit hooks).calls,
      c.2.2.State = .unknownCmd ∧ c.2.2.State ≠ .duplicateID) ∧
    (mapGet (pm.RunCmd env cmd hooksOnExit hooks).pm.runners cmd.ID).isSome = true := by
  refine ⟨GetRunner_unknown env pm cmd hooksOnExit hooks hreg, ?_⟩
  rw [RunCmd_of_unknown env pm cmd hooksOnExit hooks hreg]
  refine ⟨rfl, ?_, ?_, hlive⟩
  · intro x hx
    simp only [List.mem_singleton] at hx
    rw [hx]
    intro h
    exact JobState.noConfusion h
  · intro c hc
    have := fanOut_calls_event pm.resultHandlers _ c hc
    rw [this]
    refine ⟨rfl, ?_⟩
    intro h
    exact JobState.noConfusion h

/-- C15 at a concrete input: the unregistered name `nope` with the id `x` of the live
runner of `samplePM`. -/
theorem GetRunner_unknown_before_duplicate_witness :
    GetProcessFactory sampleEnv unknownLiveCmd = none ∧
    (mapGet samplePM.runners unknownLiveCmd.ID).isSome = true ∧
    (samplePM.RunCmd sampleEnv unknownLiveCmd false []).dispatched.map (fun x => x.State)
      = [JobState.unknownCmd] :=
  ⟨rfl, rfl,
   (GetRunner_unknown_before_duplicate sampleEnv samplePM unknownLiveCmd false [] rfl rfl).2.1⟩

/-! ## A rejected slice entry -/

/-- The command of a slice entry has the key of the entry as its id. -/
theorem sliceCmd_ID (st : Settings) (up : Startup) : (sliceCmd st up).ID = up.key := by
  unfold sliceCmd
  by_cases h : MapArgs.GetInt up.Args "stats_interval" = 0
  · simp [h]
  · simp [h]

/-- Every entry of the live-runners map after `GetRunner` was there before, or is the new
runner, which holds the hooks passed. -/
theorem GetRunner_runners_mem (env : Env) (pm : PM) (cmd : Cmd) (hooksOnExit : Bool)
    (hooks : List RunnerHook) (e : String × Runner)
    (he : e ∈ (pm.GetRunner env cmd hooksOnExit hooks).1.runners) :
    e ∈ pm.runners ∨ (e.1 = cmd.ID ∧ e.2.hooks = hooks) := by
  unfold PM.GetRunner at he
  cases hf : GetProcessFactory env cmd with
  | none => simp [hf] at he; exact Or.inl he
  | some f =>
    by_cases hdup : (mapGet pm.runners cmd.ID).isSome = true
    · simp [hf, hdup] at he; exact Or.inl he
    · simp only [hf, hdup, if_false] at he
      rcases mem_mapSet pm.runners cmd.ID _ e he with h | h
      · right; rw [h]; exact ⟨rfl, rfl⟩
      · exact Or.inl h

/-- Hooks that release other keys leave the key `k` of the state machine as it was. -/
theorem callHooks_other_keys (k : String) (success : Bool) (hooks : List RunnerHook) :
    ∀ state : StateMachine, RunnerHook.release k ∉ hooks →
      mapGet (hooks.foldl (fun st h => h.call success st) state) k = mapGet state k := by
  induction hooks with
  | nil => intro state _; rfl
  | cons h hooks ih =>
    intro state hk
    have hne : h ≠ RunnerHook.release k := fun heq => hk (heq ▸ List.mem_cons_self _ _)
    have hrest : RunnerHook.release k ∉ hooks := fun hm => hk (List.mem_cons_of_mem _ hm)
    rw [List.foldl_cons, ih _ hrest]
    cases h with
    | release key =>
      have hkey : k ≠ key := fun heq => hne (by rw [heq])
      exact mapGet_mapSet_ne state key k success hkey

/-- Every operation that is not about the key `k` keeps it untouched. -/
theorem KeyUntouched_step (env : Env) (k : String) (v : Option Bool) (s s1 : SliceSys)
    (op : SliceOp) (hop : op.key? ≠ some k) (hinv : KeyUntouched k v s)
    (hstep : s.step env op = some s1) : KeyUntouched k v s1 := by
  obtain ⟨hhold, hval⟩ := hinv
  cases op with
  | entry st up =>
    have hkey : up.key ≠ k := fun h => hop (by simp [SliceOp.key?, h])
    simp only [SliceSys.step] at hstep
    cases hr : runSliceEntry env s.pm s.state up (sliceCmd st up) with
    | none => simp [hr] at hstep
    | some r =>
      simp only [hr, Option.some.injEq] at hstep
      subst hstep
      unfold runSliceEntry at hr
      cases hw : s.state.Wait up.After with
      | none => simp [hw] at hr
      | some canRun =>
        cases canRun with
        | false =>
          simp [hw] at hr
          subst hr
          exact ⟨hhold, hval⟩
        | true =>
          simp [hw] at hr
          subst hr
          refine ⟨?_, hval⟩
          intro e he
          have he2 : e ∈ (s.pm.GetRunner env (sliceCmd st up) up.MustExit
              [.release (sliceCmd st up).ID]).1.runners := by
            rw [← RunCmd_pm]; exact he
          rcases GetRunner_runners_mem env s.pm _ _ _ e he2 with h | ⟨_, h⟩
          · exact hhold e h
          · rw [h, sliceCmd_ID]
            intro hm
            simp only [List.mem_singleton, RunnerHook.release.injEq] at hm
            exact hkey hm.symm
  | callHooks id success =>
    simp only [SliceSys.step] at hstep
    cases hr : mapGet s.pm.runners id with
    | none => simp [hr] at hstep
    | some r =>
      simp only [hr, Option.some.injEq] at hstep
      subst hstep
      refine ⟨hhold, ?_⟩
      have hmem := hhold (id, r) (mem_of_mapGet _ _ _ hr)
      show mapGet (r.callHooks success s.state) k = v
      unfold Runner.callHooks
      rw [callHooks_other_keys k success r.hooks s.state hmem]
      exact hval
  | cleanUp id =>
    simp only [SliceSys.step] at hstep
    cases hr : mapGet s.pm.runners id with
    | none => simp [hr] at hstep
    | some r =>
      simp only [hr, Option.some.injEq] at hstep
      subst hstep
      refine ⟨?_, hval⟩
      intro e he
      exact hhold e (mem_mapDelete _ _ e he)
  | runCmd cmd =>
    simp only [SliceSys.step, Option.some.injEq] at hstep
    subst hstep
    refine ⟨?_, hval⟩
    intro e he
    have he2 : e ∈ (s.pm.GetRunner env cmd false []).1.runners := by
      rw [← RunCmd_pm]; exact he
    rcases GetRunner_runners_mem env s.pm _ _ _ e he2 with h | ⟨_, h⟩
    · exact hhold e h
    · rw [h]; simp
  | autoRelease key =>
    have hkey : k ≠ key := fun h => hop (by simp [SliceOp.key?, h])
    simp only [SliceSys.step, Option.some.injEq] at hstep
    subst hstep
    refine ⟨hhold, ?_⟩
    show mapGet (mapSet s.state key true) k = v
    rw [mapGet_mapSet_ne s.state key k true hkey]
    exact hval

/-- A sequence of operations none of which is about the key `k` keeps it untouched. -/
theorem KeyUntouched_run (env : Env) (k : String) (v : Option Bool) (ops : List SliceOp) :
    ∀ s s1 : SliceSys, (∀ op ∈ ops, op.key? ≠ some k) → KeyUntouched k v s →
      s.run env ops = some s1 → KeyUntouched k v s1 := by
  induction ops with
  | nil =>
    intro s s1 _ hinv hrun
    simp only [SliceSys.run, Option.some.injEq] at hrun
    subst hrun; exact hinv
  | cons op ops ih =>
    intro s s1 hops hinv hrun
    simp only [SliceSys.run] at hrun
    cases hstep : s.step env op with
    | none => simp [hstep] at hrun
    | some s2 =>
      simp only [hstep] at hrun
      exact ih s2 s1 (fun x hx => hops x (List.mem_cons_of_mem _ hx))
        (KeyUntouched_step env k v s s2 op (hops op (List.mem_cons_self _ _)) hinv hstep) hrun

/-- `RunCmd` returns no runner and leaves the live-runners map as it was when the name is
unknown or the id is live. -/
theorem RunCmd_rejected (env : Env) (pm : PM) (cmd : Cmd) (hooksOnExit : Bool)
    (hooks : List RunnerHook)
    (hrej : GetProcessFactory env cmd = none ∨ (mapGet pm.runners cmd.ID).isSome = true) :
    (pm.RunCmd env cmd hooksOnExit hooks).ret = none ∧
    (pm.RunCmd env cmd hooksOnExit hooks).started = none ∧
    (pm.RunCmd env cmd hooksOnExit hooks).pm.runners = pm.runners := by
  cases hf : GetProcessFactory env cmd with
  | none =>
    rw [RunCmd_of_unknown env pm cmd hooksOnExit hooks hf]
    exact ⟨rfl, rfl, rfl⟩
  | some f =>
    have hdup : (mapGet pm.runners cmd.ID).isSome = true := by
      rcases hrej with h | h
      · rw [hf] at h; exact Option.noConfusion h
      · exact h
    rw [RunCmd_of_duplicate env pm cmd hooksOnExit hooks (by simp [hf]) hdup]
    exact ⟨rfl, rfl, rfl⟩

/-- C14, as stated, fails: two entries of a slice have the key `a`. The first is admitted,
with the hook that releases `a`; the second gets `can_run = true` and is rejected as a
duplicate id; when the runner of the first calls its hooks without success, the key `a`,
which is the key of the rejected entry too, is released with `false`. -/
theorem rejected_entry_key_released_counterexample :
    (((SliceSys.run sampleEnv
        { pm := InitProcessManager emptyFS "mid" 2, state := NewStateMachine }
        [.entry sampleSettings sliceEntryA]).bind
      (fun s => runSliceEntry sampleEnv s.pm s.state sliceEntryA2
        (sliceCmd sampleSettings sliceEntryA2))).map
      (fun r => (r.canRun, r.ran.map (fun x => (x.ret.isSome, x.dispatched.map (fun y => y.State))),
        mapGet r.state "a")))
      = some (true, some (false, [JobState.duplicateID]), none) ∧
    ((SliceSys.run sampleEnv
        { pm := InitProcessManager emptyFS "mid" 2, state := NewStateMachine }
        [.entry sampleSettings sliceEntryA, .entry sampleSettings sliceEntryA2,
         .callHooks "a" false]).map (fun s => mapGet s.state sliceEntryA2.key))
      = some (some false) := by
  decide

/-- C14, amended: when `RunCmd` rejects a command at admission (unknown name or duplicate
id) it returns nil, starts no runner and stores the exit hooks passed to it in no runner,
so none of them is ever invoked; consequently a slice entry whose wait returned
`can_run = true` but whose command is rejected leaves the state machine as it was, and,
unless a runner live at that moment already holds a hook that releases the same key, its
key is never released afterwards, for either success value, whatever the entries of other
keys, the runners and the scheduler do. -/
theorem rejected_entry_key_never_released (env : Env) (pm : PM) (state : StateMachine)
    (st : Settings) (up : Startup)
    (hwait : state.Wait up.After = some true)
    (hrej : GetProcessFactory env (sliceCmd st up) = none ∨
      (mapGet pm.runners up.key).isSome = true) :
    (∀ (hooksOnExit : Bool) (hooks : List RunnerHook),
      (pm.RunCmd env (sliceCmd st up) hooksOnExit hooks).ret = none ∧
      (pm.RunCmd env (sliceCmd st up) hooksOnExit hooks).started = none ∧
      (pm.RunCmd env (sliceCmd st up) hooksOnExit hooks).pm.runners = pm.runners) ∧
    (∃ r, runSliceEntry env pm state up (sliceCmd st up) = some r ∧
      r.canRun = true ∧ r.ran.map (fun x => x.ret) = some none ∧
      r.state = state ∧ r.pm.runners = pm.runners ∧
      ∀ ops : List SliceOp,
        (∀ e ∈ pm.runners, RunnerHook.release up.key ∉ e.2.hooks) →
        (∀ op ∈ ops, op.key? ≠ some up.key) →
        ∀ s, SliceSys.run env { pm := r.pm, state := r.state } ops = some s →
          mapGet s.state up.key = mapGet state up.key) := by
  have hrej2 : GetProcessFactory env (sliceCmd st up) = none ∨
      (mapGet pm.runners (sliceCmd st up).ID).isSome = true := by
    rw [sliceCmd_ID]; exact hrej
  refine ⟨fun b hooks => RunCmd_rejected env pm _ b hooks hrej2, ?_⟩
  obtain ⟨h1, _, h3⟩ := RunCmd_rejected env pm (sliceCmd st up) up.MustExit
    [.release (sliceCmd st up).ID] hrej2
  refine ⟨{ pm := (pm.RunCmd env (sliceCmd st up) up.MustExit
              [.release (sliceCmd st up).ID]).pm
            state := state, canRun := true
            ran := some (pm.RunCmd env (sliceCmd st up) up.MustExit
              [.release (sliceCmd st up).ID]) }, ?_, rfl, ?_, rfl, h3, ?_⟩
  · simp [runSliceEntry, hwait]
  · simp [h1]
  · intro ops hhold hops s hrun
    have hinv : KeyUntouched up.key (mapGet state up.key)
        { pm := (pm.RunCmd env (sliceCmd st up) up.MustExit
            [.release (sliceCmd st up).ID]).pm, state := state } := by
      refine ⟨?_, rfl⟩
      intro e he
      have he2 : e ∈ pm.runners := by
        have : e ∈ (pm.RunCmd env (sliceCmd st up) up.MustExit
            [.release (sliceCmd st up).ID]).pm.runners := he
        rw [h3] at this; exact this
      exact hhold e he2
    exact (KeyUntouched_run env up.key _ ops _ s hops hinv hrun).2

/-- C14, amended, at concrete inputs. The entry `u` of the unregistered name `nope` gets
past its wait and is rejected; entry `a` then starts, runners call their hooks and end,
and the key `u` is still not released. The entry `x` of a registered name is rejected
because the runner of id `x`, taken in by the scheduler, is live; that runner calls its
hooks and ends, and the key `x` is still not released. -/
theorem rejected_entry_key_never_released_witness :
    NewStateMachine.Wait sliceEntryUnknown.After = some true ∧
    GetProcessFactory sampleEnv (sliceCmd sampleSettings sliceEntryUnknown) = none ∧
    (∀ e ∈ (InitProcessManager emptyFS "mid" 2).runners,
      RunnerHook.release sliceEntryUnknown.key ∉ e.2.hooks) ∧
    (∀ op ∈ laterSliceOps, op.key? ≠ some sliceEntryUnknown.key) ∧
    ((SliceSys.run sampleEnv
        { pm := (InitProcessManager emptyFS "mid" 2), state := NewStateMachine }
        (.entry sampleSettings sliceEntryUnknown :: laterSliceOps)).map
      (fun s => (mapGet s.state "u", mapGet s.state "a", s.pm.runners.length)))
      = some (none, some true, 0) ∧
    (∃ r, runSliceEntry sampleEnv (InitProcessManager emptyFS "mid" 2) NewStateMachine
        sliceEntryUnknown (sliceCmd sampleSettings sliceEntryUnknown) = some r ∧
      r.canRun = true ∧ r.ran.map (fun x => x.ret) = some none ∧
      r.state = NewStateMachine ∧
      r.pm.runners = (InitProcessManager emptyFS "mid" 2).runners ∧
      ∀ ops : List SliceOp,
        (∀ e ∈ (InitProcessManager emptyFS "mid" 2).runners,
          RunnerHook.release sliceEntryUnknown.key ∉ e.2.hooks) →
        (∀ op ∈ ops, op.key? ≠ some sliceEntryUnknown.key) →
        ∀ s, SliceSys.run sampleEnv { pm := r.pm, state := r.state } ops = some s →
          mapGet s.state sliceEntryUnknown.key
            = mapGet NewStateMachine sliceEntryUnknown.key) ∧
    (mapGet samplePM.runners sliceEntryX.key).isSome = true ∧
    (GetProcessFactory sampleEnv (sliceCmd sampleSettings sliceEntryX)).isSome = true ∧
    (∀ e ∈ samplePM.runners, RunnerHook.release sliceEntryX.key ∉ e.2.hooks) ∧
    ((SliceSys.run sampleEnv { pm := samplePM, state := NewStateMachine }
        [.entry sampleSettings sliceEntryX, .callHooks "x" false, .cleanUp "x",
         .entry sampleSettings sliceEntryA, .callHooks "a" true]).map
      (fun s => (mapGet s.state "x", mapGet s.state "a", s.pm.runners.length)))
      = some (none, some true, 1) ∧
    (∃ r, runSliceEntry sampleEnv samplePM NewStateMachine
        sliceEntryX (sliceCmd sampleSettings sliceEntryX) = some r ∧
      r.canRun = true ∧ r.ran.map (fun x => x.ret) = some none ∧
      r.state = NewStateMachine ∧ r.pm.runners = samplePM.runners ∧
      ∀ ops : List SliceOp,
        (∀ e ∈ samplePM.runners, RunnerHook.release sliceEntryX.key ∉ e.2.hooks) →
        (∀ op ∈ ops, op.key? ≠ some sliceEntryX.key) →
        ∀ s, SliceSys.run sampleEnv { pm := r.pm, state := r.state } ops = some s →
          mapGet s.state sliceEntryX.key = mapGet NewStateMachine sliceEntryX.key) :=
  ⟨by decide, by decide, by decide, by decide, by decide,
   (rejected_entry_key_never_released sampleEnv (InitProcessManager emptyFS "mid" 2)
      NewStateMachine sampleSettings sliceEntryUnknown (by decide) (Or.inl (by decide))).2,
   by decide, by decide, by decide, by decide,
   (rejected_entry_key_never_released sampleEnv samplePM
      NewStateMachine sampleSettings sliceEntryX (by decide) (Or.inr (by decide))).2⟩

/-! ## Message ids under overlapping calls -/

theorem MsgSys.run_append (overlap : Bool) (ops : List MsgOp) (op : MsgOp) :
    ∀ s : MsgSys, s.run overlap (ops ++ [op]) =
      (s.run overlap ops).bind (fun s1 => s1.step overlap op) := by
  induction ops with
  | nil =>
    intro s
    simp only [List.nil_append, MsgSys.run, Option.some_bind]
    cases s.step overlap op <;> rfl
  | cons o ops ih =>
    intro s
    simp only [List.cons_append, MsgSys.run]
    cases s.step overlap o with
    | none => rfl
    | some s1 => exact ih s1

/-- What a `start` step does: the message is dropped and nothing changes, or the next id
is handed out and the call enters the handler loop. -/
theorem MsgSys.step_start (overlap : Bool) (s s1 : MsgSys) (g : Nat) (cmd : Cmd)
    (msg : Message) (now : Int) (h : s.step overlap (.start g cmd msg now) = some s1) :
    (overlap = false → s.pending = []) ∧
    (s1 = s ∨
      (s1.pm.mid = (s.pm.mid + 1) % 2 ^ 32 ∧
       s1.assigned = s.assigned ++ [(s.pm.mid + 1) % 2 ^ 32] ∧
       s1.delivered = s.delivered ∧
       (s1.pending = s.pending ∨
         ∃ p : PendingMsg, s1.pending = mapSet s.pending g p ∧
           p.msg.ID = (s.pm.mid + 1) % 2 ^ 32 ∧ p.fresh = true))) := by
  simp only [MsgSys.step] at h
  by_cases hbusy : (mapGet s.pending g).isSome = true
  · simp [hbusy] at h
  · simp only [hbusy, if_false] at h
    by_cases hseq : overlap = false ∧ s.pending.isEmpty = false
    · simp [hseq] at h
    · simp only [hseq, if_false] at h
      have hfirst : overlap = false → s.pending = [] := by
        intro ho
        by_contra hne
        apply hseq
        refine ⟨ho, ?_⟩
        cases hp : s.pending with
        | nil => exact absurd hp hne
        | cons x xs => rfl
      refine ⟨hfirst, ?_⟩
      by_cases hdrop : (cmd.Args.GetIntArray "loglevels").length > 0 ∧
          ¬ (utilsIn (cmd.Args.GetIntArray "loglevels") msg.Level = true)
      · left
        rw [if_pos hdrop] at h
        exact (Option.some.inj h).symm
      · right
        rw [if_neg hdrop] at h
        have h2 := Option.some.inj h
        subst h2
        refine ⟨rfl, rfl, rfl, ?_⟩
        simp only [PM.getNextMsgID]
        cases s.pm.msgHandlers with
        | nil => left; rfl
        | cons hd tl => right; exact ⟨_, rfl, rfl, rfl⟩

/-- What a `call` step does: counter and ids handed out stay; the message is delivered if
the call reaches its first handler; the call leaves the loop or goes on, no longer fresh. -/
theorem MsgSys.step_call (overlap : Bool) (s s1 : MsgSys) (g : Nat)
    (h : s.step overlap (.call g) = some s1) :
    s1.pm = s.pm ∧ s1.assigned = s.assigned ∧
    ∃ p : PendingMsg, mapGet s.pending g = some p ∧
      (s1.delivered = s.delivered ∨
        (p.fresh = true ∧ s1.delivered = s.delivered ++ [p.msg.ID])) ∧
      (s1.pending = mapDelete s.pending g ∨
        ∃ p1 : PendingMsg, s1.pending = mapSet s.pending g p1 ∧
          p1.msg = p.msg ∧ p1.fresh = false) := by
  simp only [MsgSys.step] at h
  cases hp : mapGet s.pending g with
  | none => simp [hp] at h
  | some p =>
    simp only [hp] at h
    cases hr : p.remaining with
    | nil =>
      simp only [hr] at h
      have h2 := Option.some.inj h
      subst h2
      exact ⟨rfl, rfl, p, rfl, Or.inl rfl, Or.inl rfl⟩
    | cons hd rest =>
      simp only [hr] at h
      have h2 := Option.some.inj h
      subst h2
      refine ⟨rfl, rfl, p, rfl, ?_, ?_⟩
      · by_cases hf : p.fresh = true
        · right; exact ⟨hf, by simp [hf]⟩
        · left; simp [hf]
      · by_cases hend : hd.panicsOn (p.cmd, p.msg) = true ∨ rest.isEmpty = true
        · left; simp only [hend, if_true]
        · right
          simp only [hend, if_false]
          exact ⟨_, rfl, rfl, rfl⟩

/-- A step never takes back an id handed out. -/
theorem MsgSys.step_assigned_length (overlap : Bool) (s s1 : MsgSys) (op : MsgOp)
    (h : s.step overlap op = some s1) : s.assigned.length ≤ s1.assigned.length := by
  cases op with
  | start g cmd msg now =>
    rcases (MsgSys.step_start overlap s s1 g cmd msg now h).2 with h1 | ⟨_, h2, _⟩
    · rw [h1]
    · rw [h2]; simp
  | call g =>
    rw [(MsgSys.step_call overlap s s1 g h).2.1]

/-- A step keeps the invariant of the ids handed out while the counter does not wrap. -/
theorem AssignedInv_step (overlap : Bool) (m0 : Nat) (s s1 : MsgSys) (op : MsgOp)
    (hinv : AssignedInv m0 s) (h : s.step overlap op = some s1)
    (hroom : m0 + s1.assigned.length < 2 ^ 32) : AssignedInv m0 s1 := by
  obtain ⟨hmid, hbnd, hpw⟩ := hinv
  cases op with
  | start g cmd msg now =>
    rcases (MsgSys.step_start overlap s s1 g cmd msg now h).2 with h1 | ⟨h1, h2, _⟩
    · rw [h1]; exact ⟨hmid, hbnd, hpw⟩
    · rw [h2] at hroom
      simp only [List.length_append, List.length_singleton] at hroom
      have hmod : (s.pm.mid + 1) % 2 ^ 32 = s.pm.mid + 1 := Nat.mod_eq_of_lt (by omega)
      rw [hmod] at h1 h2
      refine ⟨?_, ?_, ?_⟩
      · rw [h1, h2]; simp only [List.length_append, List.length_singleton]; omega
      · intro a ha
        rw [h2] at ha
        rcases List.mem_append.mp ha with ha | ha
        · have := hbnd a ha
          rw [h1]; omega
        · simp only [List.mem_singleton] at ha
          rw [h1, ha]; omega
      · rw [h2, List.pairwise_append]
        refine ⟨hpw, List.pairwise_singleton _ _, ?_⟩
        intro a ha b hb
        simp only [List.mem_singleton] at hb
        have := hbnd a ha
        rw [hb]; omega
  | call g =>
    obtain ⟨h1, h2, _⟩ := MsgSys.step_call overlap s s1 g h
    unfold AssignedInv
    rw [h1, h2]
    exact ⟨hmid, hbnd, hpw⟩

/-- In every state reached, in any interleaving, the ids handed out satisfy their
invariant while the counter does not wrap. -/
theorem AssignedInv_run (overlap : Bool) (pm : PM) (fs : FS) (ops : List MsgOp) :
    ∀ r : MsgSys, (MsgSys.init pm fs).run overlap ops = some r →
      pm.mid + r.assigned.length < 2 ^ 32 → AssignedInv pm.mid r := by
  induction ops using List.reverseRecOn with
  | nil =>
    intro r hrun _
    simp only [MsgSys.run, Option.some.injEq] at hrun
    subst hrun
    exact ⟨rfl, by simp [MsgSys.init], by simp [MsgSys.init]⟩
  | append_singleton ops op ih =>
    intro r hrun hroom
    rw [MsgSys.run_append] at hrun
    cases hr1 : (MsgSys.init pm fs).run overlap ops with
    | none => simp [hr1] at hrun
    | some r1 =>
      simp only [hr1, Option.some_bind] at hrun
      have hlen := MsgSys.step_assigned_length overlap r1 r op hrun
      exact AssignedInv_step overlap pm.mid r1 r op (ih r1 hr1 (by omega)) hrun hroom

/-- With at most one call in progress, the call of a goroutine is the only entry. -/
theorem pending_single (pending : List (Nat × PendingMsg)) (g : Nat) (p : PendingMsg)
    (hlen : pending.length ≤ 1) (hget : mapGet pending g = some p) : pending = [(g, p)] := by
  match pending, hlen, hget with
  | [], _, hget => simp [mapGet] at hget
  | [(g1, p1)], _, hget =>
    by_cases hg : g1 = g
    · simp [mapGet, hg] at hget
      rw [hg, hget]
    · simp [mapGet, hg] at hget
  | _ :: _ :: _, hlen, _ => simp at hlen

/-- When calls do not overlap, a step keeps the invariant of the delivery order while the
counter does not wrap. -/
theorem DeliveredInv_step (m0 : Nat) (s s1 : MsgSys) (op : MsgOp)
    (hA : AssignedInv m0 s) (hinv : DeliveredInv s) (h : s.step false op = some s1)
    (hroom : m0 + s1.assigned.length < 2 ^ 32) : DeliveredInv s1 := by
  obtain ⟨hmid, _, _⟩ := hA
  obtain ⟨hd1, hd2, hd3, hd4⟩ := hinv
  cases op with
  | start g cmd msg now =>
    obtain ⟨hfirst, hcase⟩ := MsgSys.step_start false s s1 g cmd msg now h
    have hnil : s.pending = [] := hfirst rfl
    rcases hcase with h1 | ⟨h1, h2, h3, h4⟩
    · rw [h1]; exact ⟨hd1, hd2, hd3, hd4⟩
    · rw [h2] at hroom
      simp only [List.length_append, List.length_singleton] at hroom
      have hmod : (s.pm.mid + 1) % 2 ^ 32 = s.pm.mid + 1 := Nat.mod_eq_of_lt (by omega)
      rw [hmod] at h1
      refine ⟨?_, ?_, ?_, ?_⟩
      · intro d hd
        rw [h3] at hd
        have := hd1 d hd
        rw [h1]; omega
      · rw [h3]; exact hd2
      · rcases h4 with h4 | ⟨p, h4, _, _⟩
        · rw [h4, hnil]; simp
        · rw [h4, hnil]; simp [mapSet]
      · intro e he
        rcases h4 with h4 | ⟨p, h4, hid, _⟩
        · rw [h4, hnil] at he; simp at he
        · rw [h4, hnil] at he
          simp only [mapSet, List.mem_singleton] at he
          rw [hmod] at hid
          rw [he, h1, h3]
          refine ⟨by simp only; omega, ?_⟩
          intro _ d hd
          have := hd1 d hd
          simp only
          omega
  | call g =>
    obtain ⟨h1, _, p, hget, hdel, hpend⟩ := MsgSys.step_call false s s1 g h
    have hsingle := pending_single s.pending g p hd3 hget
    have hp := hd4 (g, p) (by rw [hsingle]; exact List.mem_singleton_self _)
    simp only at hp
    have hpend2 : s1.pending = [] ∨
        ∃ p1 : PendingMsg, s1.pending = [(g, p1)] ∧ p1.msg = p.msg ∧ p1.fresh = false := by
      rcases hpend with hp1 | ⟨p1, hp1, hp2, hp3⟩
      · left; rw [hp1, hsingle]; simp [mapDelete]
      · right; exact ⟨p1, by rw [hp1, hsingle]; simp [mapSet], hp2, hp3⟩
    refine ⟨?_, ?_, ?_, ?_⟩
    · intro d hd
      rw [h1]
      rcases hdel with hdel | ⟨_, hdel⟩
      · rw [hdel] at hd; exact hd1 d hd
      · rw [hdel] at hd
        rcases List.mem_append.mp hd with hd | hd
        · exact hd1 d hd
        · simp only [List.mem_singleton] at hd
          rw [hd]; exact hp.1
    · rcases hdel with hdel | ⟨hf, hdel⟩
      · rw [hdel]; exact hd2
      · rw [hdel, List.pairwise_append]
        refine ⟨hd2, List.pairwise_singleton _ _, ?_⟩
        intro a ha b hb
        simp only [List.mem_singleton] at hb
        rw [hb]; exact hp.2 hf a ha
    · rcases hpend2 with hp1 | ⟨p1, hp1, _, _⟩
      · rw [hp1]; simp
      · rw [hp1]; simp
    · intro e he
      rcases hpend2 with hp1 | ⟨p1, hp1, hp2, hp3⟩
      · rw [hp1] at he; simp at he
      · rw [hp1] at he
        simp only [List.mem_singleton] at he
        rw [he, h1]
        refine ⟨by simp only; rw [hp2]; exact hp.1, ?_⟩
        intro hf
        simp only at hf
        rw [hp3] at hf
        exact absurd hf (by decide)

/-- In every state reached by calls that do not overlap, the delivery order satisfies its
invariant while the counter does not wrap. -/
theorem DeliveredInv_run (pm : PM) (fs : FS) (ops : List MsgOp) :
    ∀ r : MsgSys, (MsgSys.init pm fs).run false ops = some r →
      pm.mid + r.assigned.length < 2 ^ 32 → DeliveredInv r := by
  induction ops using List.reverseRecOn with
  | nil =>
    intro r hrun _
    simp only [MsgSys.run, Option.some.injEq] at hrun
    subst hrun
    exact ⟨by simp [MsgSys.init], by simp [MsgSys.init], by simp [MsgSys.init],
      by simp [MsgSys.init]⟩
  | append_singleton ops op ih =>
    intro r hrun hroom
    rw [MsgSys.run_append] at hrun
    cases hr1 : (MsgSys.init pm fs).run false ops with
    | none => simp [hr1] at hrun
    | some r1 =>
      simp only [hr1, Option.some_bind] at hrun
      have hlen := MsgSys.step_assigned_length false r1 r op hrun
      exact DeliveredInv_step pm.mid r1 r op
        (AssignedInv_run false pm fs ops r1 hr1 (by omega)) (ih r1 hr1 (by omega)) hrun hroom

/-- Every message delivered, in any interleaving, carries an id that `getNextMsgID` handed
out, and so does every call in progress. -/
theorem delivered_ids_assigned (overlap : Bool) (pm : PM) (fs : FS) (ops : List MsgOp) :
    ∀ r : MsgSys, (MsgSys.init pm fs).run overlap ops = some r →
      (∀ d ∈ r.delivered, d ∈ r.assigned) ∧ (∀ e ∈ r.pending, e.2.msg.ID ∈ r.assigned) := by
  induction ops using List.reverseRecOn with
  | nil =>
    intro r hrun
    simp only [MsgSys.run, Option.some.injEq] at hrun
    subst hrun
    exact ⟨by simp [MsgSys.init], by simp [MsgSys.init]⟩
  | append_singleton ops op ih =>
    intro r hrun
    rw [MsgSys.run_append] at hrun
    cases hr1 : (MsgSys.init pm fs).run overlap ops with
    | none => simp [hr1] at hrun
    | some r1 =>
      simp only [hr1, Option.some_bind] at hrun
      obtain ⟨ihd, ihp⟩ := ih r1 hr1
      cases op with
      | start g cmd msg now =>
        rcases (MsgSys.step_start overlap r1 r g cmd msg now hrun).2 with
          h1 | ⟨_, h2, h3, h4⟩
        · rw [h1]; exact ⟨ihd, ihp⟩
        · constructor
          · intro d hd
            rw [h3] at hd
            rw [h2]
            exact List.mem_append_left _ (ihd d hd)
          · intro e he
            rw [h2]
            rcases h4 with h4 | ⟨p, h4, hid, _⟩
            · rw [h4] at he
              exact List.mem_append_left _ (ihp e he)
            · rw [h4] at he
              rcases mem_mapSet r1.pending g p e he with h5 | h5
              · rw [h5]
                simp only
                rw [hid]
                exact List.mem_append_right _ (List.mem_singleton_self _)
              · exact List.mem_append_left _ (ihp e h5)
      | call g =>
        obtain ⟨_, h2, p, hget, hdel, hpend⟩ := MsgSys.step_call overlap r1 r g hrun
        have hp := ihp (g, p) (mem_of_mapGet _ _ _ hget)
        simp only at hp
        constructor
        · intro d hd
          rw [h2]
          rcases hdel with hdel | ⟨_, hdel⟩
          · rw [hdel] at hd; exact ihd d hd
          · rw [hdel] at hd
            rcases List.mem_append.mp hd with hd | hd
            · exact ihd d hd
            · simp only [List.mem_singleton] at hd
              rw [hd]; exact hp
        · intro e he
          rw [h2]
          rcases hpend with hp1 | ⟨p1, hp1, hp2, _⟩
          · rw [hp1] at he
            exact ihp e (mem_mapDelete _ _ e he)
          · rw [hp1] at he
            rcases mem_mapSet r1.pending g p1 e he with h5 | h5
            · rw [h5]
              simp only
              rw [hp2]; exact hp
            · exact ihp e h5

/-- Calls of `msgCallback` that overlap can reach the handlers in another order than their
ids, without any wrap: two goroutines get the ids 1 and 2, and the message of id 2 is
delivered first. -/
theorem msg_ids_overlap_example :
    ((MsgSys.init samplePM emptyFS).run true overlappingOps).map
      (fun r => (r.assigned, r.delivered, r.calls.map (fun c => (c.1, c.2.2.ID))))
      = some ([1, 2], [2, 1], [(1, 2), (2, 2), (1, 1), (2, 1)]) := by
  decide

/-- C6, amended: for every initial counter value and every interleaving of calls of
`msgCallback`, as long as the initial counter plus the number of ids handed out stays
below `2^32` (the counter does not wrap): the ids handed out by `getNextMsgID` increase
strictly in the order of its calls, every delivered message carries one of them, and when
the calls of `msgCallback` do not overlap each delivered message's id is greater than the
id of the message delivered before it. -/
theorem msg_ids_strictly_increasing (overlap : Bool) (pm : PM) (fs : FS)
    (ops : List MsgOp) (r : MsgSys)
    (hrun : (MsgSys.init pm fs).run overlap ops = some r)
    (hroom : pm.mid + r.assigned.length < 2 ^ 32) :
    List.Pairwise (fun a b => a < b) r.assigned ∧
    (∀ d ∈ r.delivered, d ∈ r.assigned) ∧
    (overlap = false → List.Pairwise (fun a b => a < b) r.delivered) := by
  refine ⟨(AssignedInv_run overlap pm fs ops r hrun hroom).2.2,
    (delivered_ids_assigned overlap pm fs ops r hrun).1, ?_⟩
  intro ho
  subst ho
  exact (DeliveredInv_run pm fs ops r hrun hroom).2.1

/-- C6, amended, at a concrete input: from counter 0, two calls that do not overlap and one
whose message the level filter drops. -/
theorem msg_ids_strictly_increasing_witness :
    (MsgSys.init samplePM emptyFS).run false sequentialOps = some sequentialFinal ∧
    samplePM.mid + sequentialFinal.assigned.length < 2 ^ 32 ∧
    sequentialFinal.assigned = [1, 2] ∧ sequentialFinal.delivered = [1, 2] ∧
    List.Pairwise (fun a b => a < b) sequentialFinal.assigned ∧
    List.Pairwise (fun a b => a < b) sequentialFinal.delivered :=
  ⟨rfl, by decide, rfl, rfl,
   (msg_ids_strictly_increasing false samplePM emptyFS sequentialOps sequentialFinal rfl
      (by decide)).1,
   (msg_ids_strictly_increasing false samplePM emptyFS sequentialOps sequentialFinal rfl
      (by decide)).2.2 rfl⟩

/-! ## Examples -/

/-- Contents of the message-ID file that `loadMid` reads as `0`: empty, ending in a
newline, signed, and above the 32-bit range; and contents it reads as a number. -/
theorem loadMid_examples :
    loadMid emptyFS "mid" = 0 ∧
    loadMid (constFS []) "mid" = 0 ∧
    loadMid (constFS [49, 50, 10]) "mid" = 0 ∧
    loadMid (constFS [43, 53]) "mid" = 0 ∧
    loadMid (constFS [52, 50, 57, 52, 57, 54, 55, 50, 57, 54]) "mid" = 0 ∧
    loadMid (constFS [52, 50, 57, 52, 57, 54, 55, 50, 57, 53]) "mid" = 4294967295 ∧
    loadMid (constFS [48, 48, 55]) "mid" = 7 := by
  decide

end ProcMgr
